import Mathlib

/-!
Verification development for the ThatLatexLib repository (TypeScript).

The definitions below are a shallow embedding of the library's core:
the checksum (fingerprint) calculator (`src/checksums.ts`), the PDF and
SVG generators (`src/generators/pdf.ts`, the `SvgGenerator`, and the old
flat `src/generator.ts` API), the image extractor
(`src/transformer/imageExtractor.ts`) and the Pandoc transformer
(`src/transformer/transformer.ts`).

The filesystem is modelled as a map from path strings to contents, and
external tools (latexmk, pdftocairo, pandoc, svgo, katex, md5) are
modelled as oracle functions carried by an `Env` record, following the
spec's collaborator contracts.  Machine effects (compiler invocations)
are tracked by counters in a state record so that "the compiler is never
invoked" is expressible.
-/

namespace ThatLatexLib

/-! ## Path utilities (modelling node:path as used by the library)

`getFileName` embeds `path.parse(file).name` (`src/utils/utils.ts`),
`dirname` embeds `path.dirname`, and `resolve2`/`resolve3` embed
`path.resolve` for the call shapes used in the sources (the second
argument wins when absolute; no `..` normalization is needed by any
claim).
-/

/-- The characters of a path after the last slash (the base name). -/
def baseNameChars (file : String) : List Char :=
  (file.data.reverse.takeWhile (fun c => c ≠ '/')).reverse

/-- Embeds `path.parse(file).name`: base name without its last extension;
a leading-dot-only name keeps the dot (JS behaviour). -/
def getFileName (file : String) : String :=
  let base := baseNameChars file
  let r := base.reverse
  match r.dropWhile (fun c => c ≠ '.') with
  | [] => String.mk base
  | _ :: rest => if rest.isEmpty then String.mk base else String.mk rest.reverse

/-- Embeds `path.dirname`. -/
def dirname (file : String) : String :=
  match file.data.reverse.dropWhile (fun c => c ≠ '/') with
  | [] => "."
  | [_] => "/"
  | _ :: rest => String.mk rest.reverse

/-- The string starts with a slash (an absolute path). -/
def headIsSlash (s : String) : Bool :=
  match s.data with
  | [] => false
  | c :: _ => c = '/'

/-- The string ends with a slash. -/
def lastIsSlash (s : String) : Bool :=
  match s.data.getLast? with
  | some c => c = '/'
  | none => false

/-- Embeds `path.resolve(dir, f)` for the shapes used here: an absolute
second argument wins, otherwise it is joined under `dir`. -/
def resolve2 (dir f : String) : String :=
  if headIsSlash f then f
  else if lastIsSlash dir then dir ++ f
  else dir ++ "/" ++ f

/-- Embeds `path.resolve(a, b, f)`. -/
def resolve3 (a b f : String) : String :=
  resolve2 (resolve2 a b) f

/-! ## Filesystem model -/

/-- A filesystem: file contents by path, and directory listings by path. -/
structure Fs where
  files : String → Option String
  dirs : String → Option (List String)

/-- Embeds `fs.existsSync`. -/
def Fs.existsSync (fs : Fs) (p : String) : Bool :=
  (fs.files p).isSome || (fs.dirs p).isSome

/-- Embeds `fs.readFileSync(p, utf8)` (total in the model; claims only
read paths that exist). -/
def Fs.readFile (fs : Fs) (p : String) : String :=
  (fs.files p).getD ""

/-- Embeds `fs.writeFileSync` / `fs.copyFileSync`'s write half. -/
def Fs.writeFile (fs : Fs) (p c : String) : Fs :=
  ⟨fun q => if q = p then some c else fs.files q, fs.dirs⟩

/-- Embeds `fs.rmSync`. -/
def Fs.rmFile (fs : Fs) (p : String) : Fs :=
  ⟨fun q => if q = p then none else fs.files q, fs.dirs⟩

/-- Embeds `fs.lstatSync(p).isDirectory()`. -/
def Fs.isDir (fs : Fs) (p : String) : Bool :=
  (fs.dirs p).isSome

/-- Embeds `fs.readdirSync`. -/
def Fs.readdir (fs : Fs) (p : String) : List String :=
  (fs.dirs p).getD []

/-! ## The include-directive matcher

Embeds the regular expression of `src/checksums.ts` line 111:
`\\<command>(\[[A-Za-zÀ-ÖØ-öø-ÿ\d, =.\\-]*])?{([A-Za-zÀ-ÖØ-öø-ÿ\d/, .\-:_]+)}`
executed repeatedly with the `g` flag (each `exec` resumes after the end
of the previous match).  Both character classes exclude their closing
delimiter, so the greedy class runs are exactly the maximal runs and the
JS backtracking engine is equivalent to the deterministic scanner below.
-/

/-- The letter ranges of both character classes
(`A-Za-zÀ-ÖØ-öø-ÿ`). -/
def isLatinLetter (c : Char) : Bool :=
  (65 ≤ c.toNat && c.toNat ≤ 90) || (97 ≤ c.toNat && c.toNat ≤ 122) ||
  (192 ≤ c.toNat && c.toNat ≤ 214) || (216 ≤ c.toNat && c.toNat ≤ 246) ||
  (248 ≤ c.toNat && c.toNat ≤ 255)

/-- The target character class `[A-Za-zÀ-ÖØ-öø-ÿ\d/, .\-:_]`. -/
def isTargetChar (c : Char) : Bool :=
  isLatinLetter c || c.isDigit || c = '/' || c = ',' || c = ' ' || c = '.' ||
  c = '-' || c = ':' || c = '_'

/-- The options character class `[A-Za-zÀ-ÖØ-öø-ÿ\d, =.\\-]`. -/
def isOptsChar (c : Char) : Bool :=
  isLatinLetter c || c.isDigit || c = ',' || c = ' ' || c = '=' || c = '.' ||
  c = '\\' || c = '-'

/-- Parses `\x7b<target>\x7d` (a braced non-empty target-class run);
returns the captured target and the rest after the match. -/
def parseBraceTarget : List Char → Option (List Char × List Char)
  | c :: rest =>
    if c = '\x7b' then
      let t := rest.takeWhile isTargetChar
      let w := rest.dropWhile isTargetChar
      if t.isEmpty then none
      else
        match w with
        | d :: w2 => if d = '\x7d' then some (t, w2) else none
        | [] => none
    else none
  | [] => none

/-- Parses the optional `[options]` group followed by the braced target.
If the text starts with `[` but the bracketed group cannot complete, the
whole match fails (the empty-group alternative would then need `\x7b`
at the `[` position). -/
def parseAfterCommand : List Char → Option (List Char × List Char)
  | c :: rest =>
    if c = '[' then
      match rest.dropWhile isOptsChar with
      | d :: w2 => if d = ']' then parseBraceTarget w2 else none
      | [] => none
    else parseBraceTarget (c :: rest)
  | [] => none

/-- Tries to match the include pattern at the head of `s`; on success
returns the captured target and the rest of the text after the match. -/
def matchIncludeAt (cmd : List Char) (s : List Char) : Option (List Char × List Char) :=
  match s with
  | c :: rest =>
    if c = '\\' && cmd.isPrefixOf rest then parseAfterCommand (rest.drop cmd.length)
    else none
  | [] => none

/-- All captured targets of the repeated `regex.exec` loop, in order;
the scan resumes after each match (JS `lastIndex`), else advances one
character. -/
def includeTargetsAux (cmd : List Char) : Nat → List Char → List (List Char)
  | 0, _ => []
  | _ + 1, [] => []
  | fuel + 1, c :: rest =>
    match matchIncludeAt cmd (c :: rest) with
    | some (t, after) => t :: includeTargetsAux cmd fuel after
    | none => includeTargetsAux cmd fuel rest

/-- The capture groups (target file names) of all matches of the include
directive `cmd` in `content`, in document order. -/
def includeTargets (cmd : String) (content : List Char) : List String :=
  (includeTargetsAux cmd.data content.length content).map String.mk

/-! ## Checksums (`src/checksums.ts`) -/

/-- The value stored under one fingerprint key: a hash string, or a
nested fingerprint (`Checksums`) for directory targets and recursive
includes. -/
inductive ChecksumValue where
  | hash : String → ChecksumValue
  | nested : List (String × ChecksumValue) → ChecksumValue
deriving BEq

/-- The `Checksums` object: a string-keyed, insertion-ordered map (JS
object semantics). -/
abbrev Checksums := List (String × ChecksumValue)

/-- JS object key membership (`key in checksums`). -/
def containsKey (cs : Checksums) (k : String) : Bool :=
  cs.any (fun p => p.1 = k)

/-- JS object assignment `checksums[k] = v`: overwrite in place keeps
the original key position, otherwise append. -/
def setKey : Checksums → String → ChecksumValue → Checksums
  | [], k, v => [(k, v)]
  | (k1, v1) :: rest, k, v =>
    if k1 = k then (k1, v) :: rest else (k1, v1) :: setKey rest k v

/-- JSON string escaping for quote and backslash (the only escapes the
library's keys and hex hashes can need). -/
def jsonEscape (s : String) : String :=
  String.mk (s.data.foldr
    (fun c acc => if c = '"' || c = '\\' then '\\' :: c :: acc else c :: acc) [])

mutual

/-- Serialization of one value, as `JSON.stringify` produces it. -/
def jsonOfValue : ChecksumValue → String
  | .hash h => "\"" ++ jsonEscape h ++ "\""
  | .nested cs => "\x7b" ++ jsonOfEntries cs ++ "\x7d"

/-- Serialization of the entries of an object, insertion order, comma
separated. -/
def jsonOfEntries : List (String × ChecksumValue) → String
  | [] => ""
  | [(k, v)] => "\"" ++ jsonEscape k ++ "\":" ++ jsonOfValue v
  | (k, v) :: rest =>
    "\"" ++ jsonEscape k ++ "\":" ++ jsonOfValue v ++ "," ++ jsonOfEntries rest

end

/-- `JSON.stringify` on a `Checksums` object (insertion order — the
canonical serialization persisted to sidecar files). -/
def jsonStringify (cs : Checksums) : String :=
  "\x7b" ++ jsonOfEntries cs ++ "\x7d"

/-- One LaTeX inclusion command configuration (`LatexIncludeCommand`). -/
structure LatexIncludeCommand where
  command : String
  directories : List (Option String) := []
  extensions : List String := []
  excludes : List String := []
  hasIncludes : Bool := false
  targetIsDirectory : Bool := false
  hasGraphics : Bool := false

/-- The default include commands of `src/checksums.ts`. -/
def defaultLatexIncludeCommands : List LatexIncludeCommand :=
  [{ command := "includegraphics",
     extensions := [".pdf", ".svg", ".png", ".jpeg", ".jpg"],
     hasGraphics := true },
   { command := "include", extensions := [".tex"], hasIncludes := true },
   { command := "input", extensions := [".tex"], hasIncludes := true }]

/-- The type of the recursive fingerprint call (`filePath`,
`currentDirectory`) threaded through the per-command helpers. -/
abbrev RecurCalc := String → Option String → Checksums

/-- The extension probing loop (`src/checksums.ts` lines 166-176): the
first suffix under which the file exists wins, otherwise the bare name
is kept. -/
def tryExtensionsProbe (fs : Fs) (base : String) : List String → String
  | [] => base
  | e :: rest =>
    if fs.existsSync (base ++ e) then base ++ e else tryExtensionsProbe fs base rest

/-- The loop body of the directory-target branch (lines 150-161): hash
one immediate child (recursively fingerprinting it when the command
`hasIncludes`). -/
def dirChildStep (recur : RecurCalc) (hash : String → String) (fs : Fs)
    (cmd : LatexIncludeCommand) (curDir includeFile : String)
    (dcs : Checksums) (file : String) : Checksums :=
  let subKey := "sub:" ++ getFileName file
  let subPath := resolve2 includeFile file
  if cmd.hasIncludes then setKey dcs subKey (.nested (recur subPath (some curDir)))
  else setKey dcs subKey (.hash (hash (fs.readFile subPath)))

/-- The directory-target branch (lines 144-164): fold `dirChildStep`
over the directory's immediate children. -/
def dirEntryValue (recur : RecurCalc) (hash : String → String) (fs : Fs)
    (cmd : LatexIncludeCommand) (curDir includeFile : String) : List String → Checksums → Checksums
  | [], dcs => dcs
  | file :: rest, dcs =>
    dirEntryValue recur hash fs cmd curDir includeFile rest
      (dirChildStep recur hash fs cmd curDir includeFile dcs file)

/-- The directory search loop (lines 138-189): first directory where the
target (a directory, or a file after extension probing) exists wins;
`none` when nothing resolves. -/
def resolveTargetValue (recur : RecurCalc) (hash : String → String) (fs : Fs)
    (cmd : LatexIncludeCommand) (curDir : String) :
    List (Option String) → String → Option ChecksumValue
  | [], _ => none
  | d :: rest, fileName =>
    let includeFile := match d with
      | none => fileName
      | some dir => resolve3 curDir dir fileName
    if cmd.targetIsDirectory then
      if fs.existsSync includeFile && fs.isDir includeFile then
        some (.nested (dirEntryValue recur hash fs cmd curDir includeFile
          (fs.readdir includeFile) []))
      else resolveTargetValue recur hash fs cmd curDir rest fileName
    else
      let f := tryExtensionsProbe fs includeFile ("" :: cmd.extensions)
      if fs.existsSync f then
        some (if cmd.hasIncludes then ChecksumValue.nested (recur f (some curDir))
              else ChecksumValue.hash (hash (fs.readFile f)))
      else resolveTargetValue recur hash fs cmd curDir rest fileName

/-- The search-directory list for one command (lines 127-137): `null`,
the current directory, the command's configured directories, the file's
own directory when different, and the graphics directories for graphics
commands. -/
def commandSearchDirs (cmd : LatexIncludeCommand) (curDir fileDir : String)
    (grDirs : List String) : List (Option String) :=
  let ds := none :: some curDir :: cmd.directories
  let ds := if fileDir = curDir then ds else ds ++ [some fileDir]
  if cmd.hasGraphics then ds ++ grDirs.map some else ds

/-- The body of the match loop (lines 120-193) for one captured target:
skipped when excluded or already keyed, else resolved and (if found)
stored under `<command>:<target>`. -/
def includeTargetStep (recur : RecurCalc) (hash : String → String) (fs : Fs)
    (cmd : LatexIncludeCommand) (curDir : String) (dirs : List (Option String))
    (cs : Checksums) (fileName : String) : Checksums :=
  let key := cmd.command ++ ":" ++ fileName
  if !(cmd.excludes.contains fileName) && !(containsKey cs key) then
    match resolveTargetValue recur hash fs cmd curDir dirs fileName with
    | some v => setKey cs key v
    | none => cs
  else cs

/-- The match loop: fold `includeTargetStep` over the captured targets
in document order. -/
def appendTargets (recur : RecurCalc) (hash : String → String) (fs : Fs)
    (cmd : LatexIncludeCommand) (curDir : String) (dirs : List (Option String)) :
    List String → Checksums → Checksums
  | [], cs => cs
  | t :: rest, cs =>
    appendTargets recur hash fs cmd curDir dirs rest
      (includeTargetStep recur hash fs cmd curDir dirs cs t)

/-- The per-command processing (lines 109-194): read the file content,
scan it for the command's matches and fold the match loop. -/
def appendCommandChecksums (recur : RecurCalc) (hash : String → String) (fs : Fs)
    (grDirs : List String) (filePath curDir : String)
    (cmd : LatexIncludeCommand) (cs0 : Checksums) : Checksums :=
  let fileDir := dirname filePath
  let content := fs.readFile filePath
  appendTargets recur hash fs cmd curDir (commandSearchDirs cmd curDir fileDir grDirs)
    (includeTargets cmd.command content.data) cs0

/-- The outer loop over the configured include commands. -/
def appendAllCommands (recur : RecurCalc) (hash : String → String) (fs : Fs)
    (grDirs : List String) (filePath curDir : String) :
    List LatexIncludeCommand → Checksums → Checksums
  | [], cs => cs
  | cmd :: rest, cs =>
    appendAllCommands recur hash fs grDirs filePath curDir rest
      (appendCommandChecksums recur hash fs grDirs filePath curDir cmd cs)

/-- `calculateTexFileChecksums` (lines 92-197), with explicit recursion
fuel (the source recursion is unbounded on cyclic includes).  Note the
source's recursive calls pass only three arguments, so nested files are
processed with the *default* command list regardless of the caller's. -/
def calculateTexFileChecksums :
    Nat → (String → String) → Fs → List String → List LatexIncludeCommand →
    String → Option String → Checksums
  | 0, _, _, _, _, _, _ => []
  | fuel + 1, hash, fs, grDirs, cmds, filePath, currentDirectory =>
    let fileDirectory := dirname filePath
    let curDir := currentDirectory.getD fileDirectory
    let cs : Checksums :=
      setKey [] ("file:" ++ getFileName filePath) (.hash (hash (fs.readFile filePath)))
    appendAllCommands
      (fun f cd => calculateTexFileChecksums fuel hash fs grDirs
        defaultLatexIncludeCommands f cd)
      hash fs grDirs filePath curDir cmds cs

/-! ## Reads instrumentation

`calculateTexFileChecksumsR` recomputes the fingerprint together with
the list of paths whose *contents* the computation reads
(`fs.readFileSync` calls); existence probes are not content reads.
Each helper mirrors its uninstrumented counterpart and additionally
returns its own read set; `..._fst` lemmas prove the first components
coincide. -/

/-- Paired recursive call: fingerprint and reads. -/
abbrev RecurCalcR := String → Option String → Checksums × List String

/-- Instrumented `dirChildStep`. -/
def dirChildStepR (recurR : RecurCalcR) (hash : String → String) (fs : Fs)
    (cmd : LatexIncludeCommand) (curDir includeFile : String)
    (dcs : Checksums) (file : String) : Checksums × List String :=
  let subKey := "sub:" ++ getFileName file
  let subPath := resolve2 includeFile file
  if cmd.hasIncludes then
    (setKey dcs subKey (.nested (recurR subPath (some curDir)).1),
     (recurR subPath (some curDir)).2)
  else (setKey dcs subKey (.hash (hash (fs.readFile subPath))), [subPath])

/-- Instrumented `dirEntryValue`. -/
def dirEntryValueR (recurR : RecurCalcR) (hash : String → String) (fs : Fs)
    (cmd : LatexIncludeCommand) (curDir includeFile : String) :
    List String → Checksums → Checksums × List String
  | [], dcs => (dcs, [])
  | file :: rest, dcs =>
    let s := dirChildStepR recurR hash fs cmd curDir includeFile dcs file
    let t := dirEntryValueR recurR hash fs cmd curDir includeFile rest s.1
    (t.1, s.2 ++ t.2)

/-- Instrumented `resolveTargetValue`. -/
def resolveTargetValueR (recurR : RecurCalcR) (hash : String → String) (fs : Fs)
    (cmd : LatexIncludeCommand) (curDir : String) :
    List (Option String) → String → Option ChecksumValue × List String
  | [], _ => (none, [])
  | d :: rest, fileName =>
    let includeFile := match d with
      | none => fileName
      | some dir => resolve3 curDir dir fileName
    if cmd.targetIsDirectory then
      if fs.existsSync includeFile && fs.isDir includeFile then
        (some (.nested (dirEntryValueR recurR hash fs cmd curDir includeFile
            (fs.readdir includeFile) []).1),
         (dirEntryValueR recurR hash fs cmd curDir includeFile
            (fs.readdir includeFile) []).2)
      else resolveTargetValueR recurR hash fs cmd curDir rest fileName
    else
      let f := tryExtensionsProbe fs includeFile ("" :: cmd.extensions)
      if fs.existsSync f then
        if cmd.hasIncludes then
          (some (.nested (recurR f (some curDir)).1), (recurR f (some curDir)).2)
        else (some (.hash (hash (fs.readFile f))), [f])
      else resolveTargetValueR recurR hash fs cmd curDir rest fileName

/-- Instrumented `includeTargetStep`. -/
def includeTargetStepR (recurR : RecurCalcR) (hash : String → String) (fs : Fs)
    (cmd : LatexIncludeCommand) (curDir : String) (dirs : List (Option String))
    (cs : Checksums) (fileName : String) : Checksums × List String :=
  let key := cmd.command ++ ":" ++ fileName
  if !(cmd.excludes.contains fileName) && !(containsKey cs key) then
    let rv := resolveTargetValueR recurR hash fs cmd curDir dirs fileName
    match rv.1 with
    | some v => (setKey cs key v, rv.2)
    | none => (cs, rv.2)
  else (cs, [])

/-- Instrumented `appendTargets`. -/
def appendTargetsR (recurR : RecurCalcR) (hash : String → String) (fs : Fs)
    (cmd : LatexIncludeCommand) (curDir : String) (dirs : List (Option String)) :
    List String → Checksums → Checksums × List String
  | [], cs => (cs, [])
  | t :: rest, cs =>
    let s := includeTargetStepR recurR hash fs cmd curDir dirs cs t
    let u := appendTargetsR recurR hash fs cmd curDir dirs rest s.1
    (u.1, s.2 ++ u.2)

/-- Instrumented `appendCommandChecksums`; the command loop reads the
file content once per command. -/
def appendCommandChecksumsR (recurR : RecurCalcR) (hash : String → String) (fs : Fs)
    (grDirs : List String) (filePath curDir : String)
    (cmd : LatexIncludeCommand) (cs0 : Checksums) : Checksums × List String :=
  let fileDir := dirname filePath
  let content := fs.readFile filePath
  let r := appendTargetsR recurR hash fs cmd curDir
    (commandSearchDirs cmd curDir fileDir grDirs)
    (includeTargets cmd.command content.data) cs0
  (r.1, filePath :: r.2)

/-- Instrumented `appendAllCommands`. -/
def appendAllCommandsR (recurR : RecurCalcR) (hash : String → String) (fs : Fs)
    (grDirs : List String) (filePath curDir : String) :
    List LatexIncludeCommand → Checksums → Checksums × List String
  | [], cs => (cs, [])
  | cmd :: rest, cs =>
    let s := appendCommandChecksumsR recurR hash fs grDirs filePath curDir cmd cs
    let u := appendAllCommandsR recurR hash fs grDirs filePath curDir rest s.1
    (u.1, s.2 ++ u.2)

/-- Instrumented `calculateTexFileChecksums`. -/
def calculateTexFileChecksumsR :
    Nat → (String → String) → Fs → List String → List LatexIncludeCommand →
    String → Option String → Checksums × List String
  | 0, _, _, _, _, _, _ => ([], [])
  | fuel + 1, hash, fs, grDirs, cmds, filePath, currentDirectory =>
    let fileDirectory := dirname filePath
    let curDir := currentDirectory.getD fileDirectory
    let cs : Checksums :=
      setKey [] ("file:" ++ getFileName filePath) (.hash (hash (fs.readFile filePath)))
    let r := appendAllCommandsR
      (fun f cd => calculateTexFileChecksumsR fuel hash fs grDirs
        defaultLatexIncludeCommands f cd)
      hash fs grDirs filePath curDir cmds cs
    (r.1, filePath :: r.2)

/-- The list of paths whose contents a fingerprint computation reads. -/
def calcReads (fuel : Nat) (hash : String → String) (fs : Fs) (grDirs : List String)
    (cmds : List LatexIncludeCommand) (filePath : String) (cd : Option String) :
    List String :=
  (calculateTexFileChecksumsR fuel hash fs grDirs cmds filePath cd).2

/-! ### The instrumented computation returns the same fingerprint -/

theorem dirEntryValueR_fst (recurR : RecurCalcR) (recur : RecurCalc)
    (hrec : ∀ f cd, (recurR f cd).1 = recur f cd)
    (hash : String → String) (fs : Fs) (cmd : LatexIncludeCommand)
    (curDir includeFile : String) (files : List String) (dcs : Checksums) :
    (dirEntryValueR recurR hash fs cmd curDir includeFile files dcs).1
      = dirEntryValue recur hash fs cmd curDir includeFile files dcs := by
  induction files generalizing dcs with
  | nil => rfl
  | cons file rest ih =>
    simp only [dirEntryValueR, dirEntryValue, dirChildStepR, dirChildStep]
    split
    · rw [hrec]; exact ih _
    · exact ih _

theorem resolveTargetValueR_fst (recurR : RecurCalcR) (recur : RecurCalc)
    (hrec : ∀ f cd, (recurR f cd).1 = recur f cd)
    (hash : String → String) (fs : Fs) (cmd : LatexIncludeCommand)
    (curDir : String) (dirs : List (Option String)) (fileName : String) :
    (resolveTargetValueR recurR hash fs cmd curDir dirs fileName).1
      = resolveTargetValue recur hash fs cmd curDir dirs fileName := by
  induction dirs with
  | nil => rfl
  | cons d rest ih =>
    simp only [resolveTargetValueR, resolveTargetValue]
    split
    · split
      · simp only [dirEntryValueR_fst recurR recur hrec]
      · exact ih
    · split
      · split
        · simp only [hrec]
        · rfl
      · exact ih

theorem includeTargetStepR_fst (recurR : RecurCalcR) (recur : RecurCalc)
    (hrec : ∀ f cd, (recurR f cd).1 = recur f cd)
    (hash : String → String) (fs : Fs) (cmd : LatexIncludeCommand)
    (curDir : String) (dirs : List (Option String)) (cs : Checksums) (fileName : String) :
    (includeTargetStepR recurR hash fs cmd curDir dirs cs fileName).1
      = includeTargetStep recur hash fs cmd curDir dirs cs fileName := by
  simp only [includeTargetStepR, includeTargetStep,
    resolveTargetValueR_fst recurR recur hrec]
  split
  · split <;> simp_all
  · rfl

theorem appendTargetsR_fst (recurR : RecurCalcR) (recur : RecurCalc)
    (hrec : ∀ f cd, (recurR f cd).1 = recur f cd)
    (hash : String → String) (fs : Fs) (cmd : LatexIncludeCommand)
    (curDir : String) (dirs : List (Option String)) (ts : List String) (cs : Checksums) :
    (appendTargetsR recurR hash fs cmd curDir dirs ts cs).1
      = appendTargets recur hash fs cmd curDir dirs ts cs := by
  induction ts generalizing cs with
  | nil => rfl
  | cons t rest ih =>
    simp only [appendTargetsR, appendTargets,
      includeTargetStepR_fst recurR recur hrec]
    exact ih _

theorem appendAllCommandsR_fst (recurR : RecurCalcR) (recur : RecurCalc)
    (hrec : ∀ f cd, (recurR f cd).1 = recur f cd)
    (hash : String → String) (fs : Fs) (grDirs : List String)
    (filePath curDir : String) (cmds : List LatexIncludeCommand) (cs : Checksums) :
    (appendAllCommandsR recurR hash fs grDirs filePath curDir cmds cs).1
      = appendAllCommands recur hash fs grDirs filePath curDir cmds cs := by
  induction cmds generalizing cs with
  | nil => rfl
  | cons cmd rest ih =>
    simp only [appendAllCommandsR, appendAllCommands, appendCommandChecksumsR,
      appendCommandChecksums, appendTargetsR_fst recurR recur hrec]
    exact ih _

theorem calculateTexFileChecksumsR_fst (fuel : Nat) (hash : String → String) (fs : Fs)
    (grDirs : List String) (cmds : List LatexIncludeCommand)
    (filePath : String) (cd : Option String) :
    (calculateTexFileChecksumsR fuel hash fs grDirs cmds filePath cd).1
      = calculateTexFileChecksums fuel hash fs grDirs cmds filePath cd := by
  induction fuel generalizing cmds filePath cd with
  | zero => rfl
  | succ fuel ih =>
    simp only [calculateTexFileChecksumsR, calculateTexFileChecksums]
    exact appendAllCommandsR_fst _ _ (fun f c2 => ih _ f c2) hash fs grDirs filePath _ cmds _

/-! ### Frame: only the contents of read paths matter -/

/-- `fs1` and `fs2` agree on the contents of every path in `l`. -/
def filesAgreeOn (fs1 fs2 : Fs) (l : List String) : Prop :=
  ∀ p ∈ l, fs1.files p = fs2.files p

theorem existsSync_congr (fs1 fs2 : Fs) (hdirs : fs1.dirs = fs2.dirs)
    (hdom : ∀ p, (fs1.files p).isSome = (fs2.files p).isSome) (p : String) :
    fs1.existsSync p = fs2.existsSync p := by
  simp [Fs.existsSync, hdom p, hdirs]

theorem tryExtensionsProbe_congr (fs1 fs2 : Fs) (hdirs : fs1.dirs = fs2.dirs)
    (hdom : ∀ p, (fs1.files p).isSome = (fs2.files p).isSome)
    (base : String) (exts : List String) :
    tryExtensionsProbe fs1 base exts = tryExtensionsProbe fs2 base exts := by
  induction exts with
  | nil => rfl
  | cons e rest ih =>
    simp only [tryExtensionsProbe, existsSync_congr fs1 fs2 hdirs hdom]
    split <;> simp [ih]

theorem dirEntryValueR_congr (fs1 fs2 : Fs) (hdirs : fs1.dirs = fs2.dirs)
    (hdom : ∀ p, (fs1.files p).isSome = (fs2.files p).isSome)
    (recurR1 recurR2 : RecurCalcR)
    (hrec : ∀ f cd, filesAgreeOn fs1 fs2 (recurR1 f cd).2 → recurR1 f cd = recurR2 f cd)
    (hash : String → String) (cmd : LatexIncludeCommand) (curDir includeFile : String)
    (files : List String) (dcs : Checksums)
    (hagree : filesAgreeOn fs1 fs2
      (dirEntryValueR recurR1 hash fs1 cmd curDir includeFile files dcs).2) :
    dirEntryValueR recurR1 hash fs1 cmd curDir includeFile files dcs
      = dirEntryValueR recurR2 hash fs2 cmd curDir includeFile files dcs := by
  induction files generalizing dcs with
  | nil => rfl
  | cons file rest ih =>
    simp only [dirEntryValueR] at hagree ⊢
    have hsplit : filesAgreeOn fs1 fs2
        (dirChildStepR recurR1 hash fs1 cmd curDir includeFile dcs file).2 ∧
        filesAgreeOn fs1 fs2
          (dirEntryValueR recurR1 hash fs1 cmd curDir includeFile rest
            (dirChildStepR recurR1 hash fs1 cmd curDir includeFile dcs file).1).2 := by
      constructor <;> intro p hp <;> exact hagree p (by simp [hp])
    have hstep : dirChildStepR recurR1 hash fs1 cmd curDir includeFile dcs file
        = dirChildStepR recurR2 hash fs2 cmd curDir includeFile dcs file := by
      simp only [dirChildStepR]
      split
      · rw [hrec _ _ (by
          intro p hp
          exact hsplit.1 p (by simp [dirChildStepR, *]))]
      · have : fs1.readFile (resolve2 includeFile file)
            = fs2.readFile (resolve2 includeFile file) := by
          have := hsplit.1 (resolve2 includeFile file) (by simp [dirChildStepR, *])
          simp [Fs.readFile, this]
        rw [this]
    rw [← hstep]
    have := ih (dirChildStepR recurR1 hash fs1 cmd curDir includeFile dcs file).1 hsplit.2
    rw [this]

theorem resolveTargetValueR_congr (fs1 fs2 : Fs) (hdirs : fs1.dirs = fs2.dirs)
    (hdom : ∀ p, (fs1.files p).isSome = (fs2.files p).isSome)
    (recurR1 recurR2 : RecurCalcR)
    (hrec : ∀ f cd, filesAgreeOn fs1 fs2 (recurR1 f cd).2 → recurR1 f cd = recurR2 f cd)
    (hash : String → String) (cmd : LatexIncludeCommand) (curDir : String)
    (dirs : List (Option String)) (fileName : String)
    (hagree : filesAgreeOn fs1 fs2
      (resolveTargetValueR recurR1 hash fs1 cmd curDir dirs fileName).2) :
    resolveTargetValueR recurR1 hash fs1 cmd curDir dirs fileName
      = resolveTargetValueR recurR2 hash fs2 cmd curDir dirs fileName := by
  induction dirs with
  | nil => rfl
  | cons d rest ih =>
    have hexr : ∀ p, fs2.existsSync p = fs1.existsSync p :=
      fun p => (existsSync_congr fs1 fs2 hdirs hdom p).symm
    have hprober : ∀ b e, tryExtensionsProbe fs2 b e = tryExtensionsProbe fs1 b e :=
      fun b e => (tryExtensionsProbe_congr fs1 fs2 hdirs hdom b e).symm
    have hrd : fs2.readdir = fs1.readdir := by
      funext p; simp [Fs.readdir, hdirs]
    have hid : fs2.isDir = fs1.isDir := by
      funext p; simp [Fs.isDir, hdirs]
    rcases d with _ | dir
    · simp only [resolveTargetValueR] at hagree
      simp only [resolveTargetValueR, hexr, hprober, hrd, hid]
      split_ifs at hagree ⊢ with h1 h2 h3 h4
      · rw [dirEntryValueR_congr fs1 fs2 hdirs hdom recurR1 recurR2 hrec hash cmd curDir
          fileName _ _ hagree]
      · exact ih hagree
      · rw [hrec _ _ hagree]
      · have hf := hagree (tryExtensionsProbe fs1 fileName ("" :: cmd.extensions)) (by simp)
        have hread : fs1.readFile (tryExtensionsProbe fs1 fileName ("" :: cmd.extensions))
            = fs2.readFile (tryExtensionsProbe fs1 fileName ("" :: cmd.extensions)) := by
          simp [Fs.readFile, hf]
        rw [hread]
      · exact ih hagree
    · simp only [resolveTargetValueR] at hagree
      simp only [resolveTargetValueR, hexr, hprober, hrd, hid]
      split_ifs at hagree ⊢ with h1 h2 h3 h4
      · rw [dirEntryValueR_congr fs1 fs2 hdirs hdom recurR1 recurR2 hrec hash cmd curDir
          (resolve3 curDir dir fileName) _ _ hagree]
      · exact ih hagree
      · rw [hrec _ _ hagree]
      · have hf := hagree
          (tryExtensionsProbe fs1 (resolve3 curDir dir fileName) ("" :: cmd.extensions))
          (by simp)
        have hread : fs1.readFile
              (tryExtensionsProbe fs1 (resolve3 curDir dir fileName) ("" :: cmd.extensions))
            = fs2.readFile
              (tryExtensionsProbe fs1 (resolve3 curDir dir fileName) ("" :: cmd.extensions)) := by
          simp [Fs.readFile, hf]
        rw [hread]
      · exact ih hagree

theorem includeTargetStepR_congr (fs1 fs2 : Fs) (hdirs : fs1.dirs = fs2.dirs)
    (hdom : ∀ p, (fs1.files p).isSome = (fs2.files p).isSome)
    (recurR1 recurR2 : RecurCalcR)
    (hrec : ∀ f cd, filesAgreeOn fs1 fs2 (recurR1 f cd).2 → recurR1 f cd = recurR2 f cd)
    (hash : String → String) (cmd : LatexIncludeCommand) (curDir : String)
    (dirs : List (Option String)) (cs : Checksums) (fileName : String)
    (hagree : filesAgreeOn fs1 fs2
      (includeTargetStepR recurR1 hash fs1 cmd curDir dirs cs fileName).2) :
    includeTargetStepR recurR1 hash fs1 cmd curDir dirs cs fileName
      = includeTargetStepR recurR2 hash fs2 cmd curDir dirs cs fileName := by
  simp only [includeTargetStepR] at hagree ⊢
  split_ifs at hagree ⊢ with hg
  · have hagree2 : filesAgreeOn fs1 fs2
        (resolveTargetValueR recurR1 hash fs1 cmd curDir dirs fileName).2 := by
      intro p hp
      apply hagree p
      cases hrv : (resolveTargetValueR recurR1 hash fs1 cmd curDir dirs fileName).1 <;>
        simp [hrv, hp]
    rw [resolveTargetValueR_congr fs1 fs2 hdirs hdom recurR1 recurR2 hrec hash cmd curDir
      dirs fileName hagree2]
  · rfl

theorem appendTargetsR_congr (fs1 fs2 : Fs) (hdirs : fs1.dirs = fs2.dirs)
    (hdom : ∀ p, (fs1.files p).isSome = (fs2.files p).isSome)
    (recurR1 recurR2 : RecurCalcR)
    (hrec : ∀ f cd, filesAgreeOn fs1 fs2 (recurR1 f cd).2 → recurR1 f cd = recurR2 f cd)
    (hash : String → String) (cmd : LatexIncludeCommand) (curDir : String)
    (dirs : List (Option String)) (ts : List String) (cs : Checksums)
    (hagree : filesAgreeOn fs1 fs2
      (appendTargetsR recurR1 hash fs1 cmd curDir dirs ts cs).2) :
    appendTargetsR recurR1 hash fs1 cmd curDir dirs ts cs
      = appendTargetsR recurR2 hash fs2 cmd curDir dirs ts cs := by
  induction ts generalizing cs with
  | nil => rfl
  | cons t rest ih =>
    simp only [appendTargetsR] at hagree ⊢
    have h1 : filesAgreeOn fs1 fs2
        (includeTargetStepR recurR1 hash fs1 cmd curDir dirs cs t).2 := by
      intro p hp; exact hagree p (by simp [hp])
    have h2 : filesAgreeOn fs1 fs2
        (appendTargetsR recurR1 hash fs1 cmd curDir dirs rest
          (includeTargetStepR recurR1 hash fs1 cmd curDir dirs cs t).1).2 := by
      intro p hp; exact hagree p (by simp [hp])
    have hs := includeTargetStepR_congr fs1 fs2 hdirs hdom recurR1 recurR2 hrec hash cmd
      curDir dirs cs t h1
    have hu := ih _ h2
    rw [← hs, ← hu]

theorem appendCommandChecksumsR_congr (fs1 fs2 : Fs) (hdirs : fs1.dirs = fs2.dirs)
    (hdom : ∀ p, (fs1.files p).isSome = (fs2.files p).isSome)
    (recurR1 recurR2 : RecurCalcR)
    (hrec : ∀ f cd, filesAgreeOn fs1 fs2 (recurR1 f cd).2 → recurR1 f cd = recurR2 f cd)
    (hash : String → String) (grDirs : List String) (filePath curDir : String)
    (cmd : LatexIncludeCommand) (cs : Checksums)
    (hagree : filesAgreeOn fs1 fs2
      (appendCommandChecksumsR recurR1 hash fs1 grDirs filePath curDir cmd cs).2) :
    appendCommandChecksumsR recurR1 hash fs1 grDirs filePath curDir cmd cs
      = appendCommandChecksumsR recurR2 hash fs2 grDirs filePath curDir cmd cs := by
  simp only [appendCommandChecksumsR] at hagree ⊢
  have hcont : fs2.readFile filePath = fs1.readFile filePath := by
    have := hagree filePath (by simp)
    simp [Fs.readFile, this]
  rw [hcont]
  have h2 : filesAgreeOn fs1 fs2
      (appendTargetsR recurR1 hash fs1 cmd curDir
        (commandSearchDirs cmd curDir (dirname filePath) grDirs)
        (includeTargets cmd.command (fs1.readFile filePath).data) cs).2 := by
    intro p hp; exact hagree p (by simp [hp])
  rw [appendTargetsR_congr fs1 fs2 hdirs hdom recurR1 recurR2 hrec hash cmd curDir _ _ _ h2]

theorem appendAllCommandsR_congr (fs1 fs2 : Fs) (hdirs : fs1.dirs = fs2.dirs)
    (hdom : ∀ p, (fs1.files p).isSome = (fs2.files p).isSome)
    (recurR1 recurR2 : RecurCalcR)
    (hrec : ∀ f cd, filesAgreeOn fs1 fs2 (recurR1 f cd).2 → recurR1 f cd = recurR2 f cd)
    (hash : String → String) (grDirs : List String) (filePath curDir : String)
    (cmds : List LatexIncludeCommand) (cs : Checksums)
    (hagree : filesAgreeOn fs1 fs2
      (appendAllCommandsR recurR1 hash fs1 grDirs filePath curDir cmds cs).2) :
    appendAllCommandsR recurR1 hash fs1 grDirs filePath curDir cmds cs
      = appendAllCommandsR recurR2 hash fs2 grDirs filePath curDir cmds cs := by
  induction cmds generalizing cs with
  | nil => rfl
  | cons cmd rest ih =>
    simp only [appendAllCommandsR] at hagree ⊢
    have h1 : filesAgreeOn fs1 fs2
        (appendCommandChecksumsR recurR1 hash fs1 grDirs filePath curDir cmd cs).2 := by
      intro p hp; exact hagree p (by simp [hp])
    have h2 : filesAgreeOn fs1 fs2
        (appendAllCommandsR recurR1 hash fs1 grDirs filePath curDir rest
          (appendCommandChecksumsR recurR1 hash fs1 grDirs filePath curDir cmd cs).1).2 := by
      intro p hp; exact hagree p (by simp [hp])
    have hs := appendCommandChecksumsR_congr fs1 fs2 hdirs hdom recurR1 recurR2 hrec hash
      grDirs filePath curDir cmd cs h1
    have hu := ih _ h2
    rw [← hs, ← hu]

/-- Frame property of the fingerprint computation: two filesystems with
the same directory structure and the same file-existence map that agree
on the contents of every path the computation reads produce identical
fingerprints (and identical read sets). -/
theorem calculateTexFileChecksumsR_congr (fs1 fs2 : Fs) (hdirs : fs1.dirs = fs2.dirs)
    (hdom : ∀ p, (fs1.files p).isSome = (fs2.files p).isSome)
    (hash : String → String) (grDirs : List String) :
    ∀ (fuel : Nat) (cmds : List LatexIncludeCommand) (filePath : String) (cd : Option String),
    filesAgreeOn fs1 fs2 (calculateTexFileChecksumsR fuel hash fs1 grDirs cmds filePath cd).2 →
    calculateTexFileChecksumsR fuel hash fs1 grDirs cmds filePath cd
      = calculateTexFileChecksumsR fuel hash fs2 grDirs cmds filePath cd := by
  intro fuel
  induction fuel with
  | zero => intro cmds filePath cd _; rfl
  | succ fuel ih =>
    intro cmds filePath cd hagree
    simp only [calculateTexFileChecksumsR] at hagree ⊢
    have hcont : fs2.readFile filePath = fs1.readFile filePath := by
      have := hagree filePath (by simp)
      simp [Fs.readFile, this]
    rw [hcont]
    have h2 : filesAgreeOn fs1 fs2
        (appendAllCommandsR
          (fun f cd2 => calculateTexFileChecksumsR fuel hash fs1 grDirs
            defaultLatexIncludeCommands f cd2)
          hash fs1 grDirs filePath (cd.getD (dirname filePath)) cmds
          (setKey [] ("file:" ++ getFileName filePath)
            (.hash (hash (fs1.readFile filePath))))).2 := by
      intro p hp; exact hagree p (by simp [hp])
    rw [appendAllCommandsR_congr fs1 fs2 hdirs hdom _ _
      (fun f cd2 hag => ih defaultLatexIncludeCommands f cd2 hag)
      hash grDirs filePath _ cmds _ h2]

/-- The target of one match is unresolvable in the searched location
`d`: for a directory target no directory exists there, for a file
target no candidate extension exists there. -/
def targetUnresolvableIn (fs : Fs) (cmd : LatexIncludeCommand) (curDir : String)
    (d : Option String) (fileName : String) : Prop :=
  let includeFile := match d with
    | none => fileName
    | some dir => resolve3 curDir dir fileName
  if cmd.targetIsDirectory then
    ¬(fs.existsSync includeFile = true ∧ fs.isDir includeFile = true)
  else ∀ ext ∈ ("" :: cmd.extensions), fs.existsSync (includeFile ++ ext) = false

instance (fs : Fs) (cmd : LatexIncludeCommand) (curDir : String) (d : Option String)
    (fileName : String) : Decidable (targetUnresolvableIn fs cmd curDir d fileName) := by
  unfold targetUnresolvableIn
  split
  · exact inferInstance
  · exact inferInstance

theorem tryExtensionsProbe_of_none (fs : Fs) (base : String) (exts : List String)
    (h : ∀ e ∈ exts, fs.existsSync (base ++ e) = false) :
    tryExtensionsProbe fs base exts = base := by
  induction exts with
  | nil => rfl
  | cons e rest ih =>
    simp only [tryExtensionsProbe, h e (by simp)]
    exact ih (fun e2 he2 => h e2 (by simp [he2]))

theorem resolveTargetValue_of_unresolvable (recur : RecurCalc) (hash : String → String)
    (fs : Fs) (cmd : LatexIncludeCommand) (curDir : String)
    (dirs : List (Option String)) (fileName : String)
    (hU : ∀ d ∈ dirs, targetUnresolvableIn fs cmd curDir d fileName) :
    resolveTargetValue recur hash fs cmd curDir dirs fileName = none := by
  induction dirs with
  | nil => rfl
  | cons d rest ih =>
    have hd := hU d (by simp)
    have hrest := ih (fun d2 hd2 => hU d2 (by simp [hd2]))
    rcases d with _ | dir <;>
    · simp only [targetUnresolvableIn] at hd
      simp only [resolveTargetValue]
      by_cases h1 : cmd.targetIsDirectory = true
      · rw [if_pos h1]
        rw [if_pos h1] at hd
        rw [if_neg (fun hcond => hd ⟨(Bool.and_eq_true _ _ |>.mp hcond).1,
          (Bool.and_eq_true _ _ |>.mp hcond).2⟩)]
        exact hrest
      · rw [if_neg h1]
        rw [if_neg h1] at hd
        have hbase := hd "" (by simp)
        have hprobe := tryExtensionsProbe_of_none fs _ _ hd
        rw [hprobe]
        simp only [String.append_empty] at hbase
        rw [if_neg (by simp [hbase])]
        exact hrest

theorem resolveTargetValueR_of_unresolvable (recurR : RecurCalcR) (hash : String → String)
    (fs : Fs) (cmd : LatexIncludeCommand) (curDir : String)
    (dirs : List (Option String)) (fileName : String)
    (hU : ∀ d ∈ dirs, targetUnresolvableIn fs cmd curDir d fileName) :
    resolveTargetValueR recurR hash fs cmd curDir dirs fileName = (none, []) := by
  induction dirs with
  | nil => rfl
  | cons d rest ih =>
    have hd := hU d (by simp)
    have hrest := ih (fun d2 hd2 => hU d2 (by simp [hd2]))
    rcases d with _ | dir <;>
    · simp only [targetUnresolvableIn] at hd
      simp only [resolveTargetValueR]
      by_cases h1 : cmd.targetIsDirectory = true
      · rw [if_pos h1]
        rw [if_pos h1] at hd
        rw [if_neg (fun hcond => hd ⟨(Bool.and_eq_true _ _ |>.mp hcond).1,
          (Bool.and_eq_true _ _ |>.mp hcond).2⟩)]
        exact hrest
      · rw [if_neg h1]
        rw [if_neg h1] at hd
        have hbase := hd "" (by simp)
        have hprobe := tryExtensionsProbe_of_none fs _ _ hd
        rw [hprobe]
        simp only [String.append_empty] at hbase
        rw [if_neg (by simp [hbase])]
        exact hrest

/-- Claim C4: for every include-directive match whose target resolves to
no existing file or directory in any searched location (with every
candidate extension), the fingerprint computation stores no entry for
that directive/target key and does not fail — the resolution returns
nothing, the match step leaves the fingerprint unchanged (likewise for
an excluded target), and such a match contributes no content reads;
consequently changing the contents of a file that the computation never
reads (as an excluded or unresolvable reference's target is not read)
leaves the computed fingerprint unchanged. -/
theorem c4_unresolvable_or_excluded_reference_omitted :
    (∀ (recur : RecurCalc) (hash : String → String) (fs : Fs)
       (cmd : LatexIncludeCommand) (curDir : String) (dirs : List (Option String))
       (fileName : String),
      (∀ d ∈ dirs, targetUnresolvableIn fs cmd curDir d fileName) →
      resolveTargetValue recur hash fs cmd curDir dirs fileName = none) ∧
    (∀ (recur : RecurCalc) (hash : String → String) (fs : Fs)
       (cmd : LatexIncludeCommand) (curDir : String) (dirs : List (Option String))
       (cs : Checksums) (fileName : String),
      ((∀ d ∈ dirs, targetUnresolvableIn fs cmd curDir d fileName) ∨
        fileName ∈ cmd.excludes) →
      includeTargetStep recur hash fs cmd curDir dirs cs fileName = cs) ∧
    (∀ (recurR : RecurCalcR) (hash : String → String) (fs : Fs)
       (cmd : LatexIncludeCommand) (curDir : String) (dirs : List (Option String))
       (cs : Checksums) (fileName : String),
      ((∀ d ∈ dirs, targetUnresolvableIn fs cmd curDir d fileName) ∨
        fileName ∈ cmd.excludes) →
      includeTargetStepR recurR hash fs cmd curDir dirs cs fileName = (cs, [])) ∧
    (∀ (fuel : Nat) (hash : String → String) (fs : Fs) (grDirs : List String)
       (cmds : List LatexIncludeCommand) (filePath : String) (cd : Option String)
       (q c : String),
      (fs.files q).isSome = true →
      q ∉ calcReads fuel hash fs grDirs cmds filePath cd →
      calculateTexFileChecksums fuel hash (fs.writeFile q c) grDirs cmds filePath cd
        = calculateTexFileChecksums fuel hash fs grDirs cmds filePath cd) := by
  refine ⟨?_, ?_, ?_, ?_⟩
  · intro recur hash fs cmd curDir dirs fileName hU
    exact resolveTargetValue_of_unresolvable recur hash fs cmd curDir dirs fileName hU
  · intro recur hash fs cmd curDir dirs cs fileName h
    rcases h with hU | hex
    · simp only [includeTargetStep]
      split_ifs with hg
      · rw [resolveTargetValue_of_unresolvable recur hash fs cmd curDir dirs fileName hU]
      · rfl
    · simp only [includeTargetStep]
      rw [if_neg (by simp [hex])]
  · intro recurR hash fs cmd curDir dirs cs fileName h
    rcases h with hU | hex
    · simp only [includeTargetStepR]
      split_ifs with hg
      · rw [resolveTargetValueR_of_unresolvable recurR hash fs cmd curDir dirs fileName hU]
      · rfl
    · simp only [includeTargetStepR]
      rw [if_neg (by simp [hex])]
  · intro fuel hash fs grDirs cmds filePath cd q c hq hnot
    have hdom : ∀ p, (fs.files p).isSome = ((fs.writeFile q c).files p).isSome := by
      intro p
      simp only [Fs.writeFile]
      split_ifs with hp
      · rw [hp, hq]; rfl
      · rfl
    have hagree : filesAgreeOn fs (fs.writeFile q c)
        (calculateTexFileChecksumsR fuel hash fs grDirs cmds filePath cd).2 := by
      intro p hp
      simp only [Fs.writeFile]
      rw [if_neg (by
        intro hpq
        exact hnot (hpq ▸ hp))]
    have h := calculateTexFileChecksumsR_congr fs (fs.writeFile q c) rfl hdom hash grDirs
      fuel cmds filePath cd hagree
    have h1 := calculateTexFileChecksumsR_fst fuel hash fs grDirs cmds filePath cd
    have h2 := calculateTexFileChecksumsR_fst fuel hash (fs.writeFile q c) grDirs cmds
      filePath cd
    rw [← h1, ← h2, h]

/-- A filesystem with a main file whose single `\input` reference is
unresolvable, plus an unrelated file `/q`. -/
def fsUnres : Fs :=
  ⟨fun p => if p = "/d/a.tex" then some "\\input\x7bmissing\x7d"
    else if p = "/q" then some "old" else none,
   fun _ => none⟩

/-- The `input` include command of the default list. -/
def inputCmd : LatexIncludeCommand :=
  { command := "input", extensions := [".tex"], hasIncludes := true }

/-- Witness for C4 at a concrete input: `\input\x7bmissing\x7d` resolves
nowhere, so its entry is dropped, and rewriting the unread file `/q`
leaves the fingerprint unchanged. -/
theorem c4_unresolvable_or_excluded_reference_omitted_witness :
    (∀ d ∈ commandSearchDirs inputCmd "/d" "/d" [],
      targetUnresolvableIn fsUnres inputCmd "/d" d "missing") ∧
    (fsUnres.files "/q").isSome = true ∧
    "/q" ∉ calcReads 2 id fsUnres [] defaultLatexIncludeCommands "/d/a.tex" none ∧
    resolveTargetValue (fun _ _ => []) id fsUnres inputCmd "/d"
      (commandSearchDirs inputCmd "/d" "/d" []) "missing" = none ∧
    calculateTexFileChecksums 2 id (fsUnres.writeFile "/q" "new") []
        defaultLatexIncludeCommands "/d/a.tex" none
      = calculateTexFileChecksums 2 id fsUnres [] defaultLatexIncludeCommands
          "/d/a.tex" none :=
  ⟨by decide, by decide, by decide,
   c4_unresolvable_or_excluded_reference_omitted.1 (fun _ _ => []) id fsUnres inputCmd
     "/d" (commandSearchDirs inputCmd "/d" "/d" []) "missing" (by decide),
   c4_unresolvable_or_excluded_reference_omitted.2.2.2 2 id fsUnres []
     defaultLatexIncludeCommands "/d/a.tex" none "/q" "new" (by decide) (by decide)⟩

/-- With no captured targets, the per-command step is the identity. -/
theorem appendCommandChecksums_no_matches (recur : RecurCalc) (hash : String → String)
    (fs : Fs) (grDirs : List String) (filePath curDir : String)
    (cmd : LatexIncludeCommand)
    (h : includeTargets cmd.command (fs.readFile filePath).data = []) (cs : Checksums) :
    appendCommandChecksums recur hash fs grDirs filePath curDir cmd cs = cs := by
  unfold appendCommandChecksums
  simp only [h, appendTargets]

/-- When every per-command step is the identity, the outer command loop
is the identity. -/
theorem appendAllCommands_fix (recur : RecurCalc) (hash : String → String) (fs : Fs)
    (grDirs : List String) (filePath curDir : String)
    (cmds : List LatexIncludeCommand) (cs : Checksums)
    (h : ∀ cmd ∈ cmds, ∀ x,
      appendCommandChecksums recur hash fs grDirs filePath curDir cmd x = x) :
    appendAllCommands recur hash fs grDirs filePath curDir cmds cs = cs := by
  induction cmds generalizing cs with
  | nil => rfl
  | cons cmd rest ih =>
    rw [appendAllCommands, h cmd (by simp)]
    exact ih cs (fun c hc x => h c (by simp [hc]) x)

/-- Claim C3: for every source file whose text contains no match of any
configured include directive, the computed fingerprint is exactly the
one-entry mapping from `file:<name>` to the hash of the file contents;
and the computation is a pure function of the filesystem contents, so a
second computation on the same unchanged contents yields the same
fingerprint. -/
theorem c3_no_directives_singleton_fingerprint
    (fuel : Nat) (hash : String → String) (fs : Fs) (grDirs : List String)
    (cmds : List LatexIncludeCommand) (filePath : String) (cd : Option String)
    (hmatch : ∀ cmd ∈ cmds, includeTargets cmd.command (fs.readFile filePath).data = []) :
    calculateTexFileChecksums (fuel + 1) hash fs grDirs cmds filePath cd
      = [("file:" ++ getFileName filePath, .hash (hash (fs.readFile filePath)))] ∧
    (∀ fs2 : Fs, fs2.files = fs.files → fs2.dirs = fs.dirs →
      calculateTexFileChecksums (fuel + 1) hash fs2 grDirs cmds filePath cd
        = calculateTexFileChecksums (fuel + 1) hash fs grDirs cmds filePath cd) := by
  constructor
  · unfold calculateTexFileChecksums
    exact appendAllCommands_fix _ hash fs grDirs filePath _ cmds _
      (fun cmd hcmd cs =>
        appendCommandChecksums_no_matches _ hash fs grDirs filePath _ cmd (hmatch cmd hcmd) cs)
  · intro fs2 hf hd
    have : fs2 = fs := by
      cases fs2; cases fs
      simp only [Fs.mk.injEq]
      exact ⟨hf, hd⟩
    rw [this]

/-- A one-file filesystem used as the concrete input of witnesses. -/
def fsSimple : Fs :=
  ⟨fun p => if p = "/d/simple.tex" then some "Hello" else none, fun _ => none⟩

/-- Witness for C3 at a concrete input: the hypothesis holds for the
default command list on a file containing `Hello`, and the theorem
applies. -/
theorem c3_no_directives_singleton_fingerprint_witness :
    (∀ cmd ∈ defaultLatexIncludeCommands,
      includeTargets cmd.command (fsSimple.readFile "/d/simple.tex").data = []) ∧
    (calculateTexFileChecksums 1 id fsSimple [] defaultLatexIncludeCommands
        "/d/simple.tex" none
      = [("file:" ++ getFileName "/d/simple.tex",
          .hash (id (fsSimple.readFile "/d/simple.tex")))] ∧
    (∀ fs2 : Fs, fs2.files = fsSimple.files → fs2.dirs = fsSimple.dirs →
      calculateTexFileChecksums 1 id fs2 [] defaultLatexIncludeCommands
          "/d/simple.tex" none
        = calculateTexFileChecksums 1 id fsSimple [] defaultLatexIncludeCommands
            "/d/simple.tex" none)) :=
  ⟨by decide,
   c3_no_directives_singleton_fingerprint 0 id fsSimple [] defaultLatexIncludeCommands
     "/d/simple.tex" none (by decide)⟩

/-! ## Generators (`src/generators/pdf.ts`, `SvgGenerator`, commands)

External tools are oracles in `Env`; `St` carries the filesystem and
counters of external invocations, so "the compiler is never invoked" is
the statement that `latexmkRuns` is unchanged. -/

/-- Oracles for the external collaborators (spec section 6). -/
structure Env where
  latexmkOk : String → String → Bool
  pdfContent : String → String → String
  pdftocairoOk : String → String → Bool
  svgContent : String → String → String
  optimizeSvg : String → String → String

/-- Machine state threaded through generator calls. -/
structure St where
  fs : Fs
  latexmkRuns : Nat := 0
  pdftocairoRuns : Nat := 0
  pdfGenerateCalls : Nat := 0
  checksumsCalcs : Nat := 0

/-- `PdfGenerateResult` of `src/generators/pdf.ts`. -/
structure PdfGenerateResult where
  builtFilePath : Option String := none
  wasCached : Bool := false
  checksumsFilePath : Option String := none
deriving DecidableEq

/-- `GenerateResult` of the generators. -/
structure GenerateResult where
  builtFilePath : Option String := none
  wasCached : Bool := false
deriving DecidableEq

/-- `CacheResult` of `src/generators/pdf.ts`. -/
structure CacheResult where
  isFullyCached : Bool
  checksums : String
  cachedPdfFilePath : String
  cachedChecksumsFilePath : String

/-- The injected checksums calculator of a generator, already composed
with `JSON.stringify` (the generators only ever use the serialized
form). -/
abbrev CalcFn := Fs → String → String

/-- `LatexGenerator` configuration (`src/generators/generator.ts`). -/
structure LatexGeneratorCfg where
  generateIfExists : Bool := true
  clean : Bool := true

/-- `SvgGenerator` configuration. -/
structure SvgGeneratorCfg extends LatexGeneratorCfg where
  optimize : Bool := true

/-- `LatexMkCommand.run` (`src/commands/latexmk.ts`): invokes the
compiler; on success the PDF appears in the working directory and its
resolved path is returned, on failure `null`. -/
def latexMkRun (env : Env) (st : St) (directory texFile : String) : Option String × St :=
  let st := { st with latexmkRuns := st.latexmkRuns + 1 }
  if env.latexmkOk directory texFile then
    let result := resolve2 directory (getFileName texFile ++ ".pdf")
    (some result, { st with fs := st.fs.writeFile result (env.pdfContent directory texFile) })
  else (none, st)

/-- `PdfToCairoCommand.run` (`src/commands/pdftocairo.ts`): idempotent —
a pre-existing SVG is returned without invoking the tool; otherwise the
tool runs and either produces the SVG or fails with `null`. -/
def pdfToCairoRun (env : Env) (st : St) (directory pdfFile : String) : Option String × St :=
  let svgFile := getFileName pdfFile ++ ".svg"
  let svgFilePath := resolve2 directory svgFile
  if st.fs.existsSync svgFilePath then (some svgFilePath, st)
  else
    let st := { st with pdftocairoRuns := st.pdftocairoRuns + 1 }
    if env.pdftocairoOk directory pdfFile then
      (some svgFilePath,
       { st with fs := st.fs.writeFile svgFilePath (env.svgContent directory pdfFile) })
    else (none, st)

/-- `PdfGenerator.getCacheInfo` (`src/generators/pdf.ts` lines 159-187). -/
def getCacheInfo (calcFn : CalcFn) (fs : Fs) (texFilePath cacheDirectoryPath : String)
    (cachedFileName : Option String) : CacheResult :=
  let fileName := cachedFileName.getD (getFileName texFilePath)
  let checksums := calcFn fs texFilePath
  let cachedPdfFilePath := resolve2 cacheDirectoryPath (fileName ++ ".pdf")
  let cachedChecksumsFilePath := resolve2 cacheDirectoryPath (fileName ++ ".checksums")
  { isFullyCached :=
      fs.existsSync cachedPdfFilePath && fs.existsSync cachedChecksumsFilePath &&
      (checksums = fs.readFile cachedChecksumsFilePath)
    checksums := checksums
    cachedPdfFilePath := cachedPdfFilePath
    cachedChecksumsFilePath := cachedChecksumsFilePath }

/-- The compile tail of `PdfGenerator.generate` (lines 130-148): run
latexmk; on success write the sidecar (reusing the cache-computed
serialization when available, else computing fresh) and clean. -/
def pdfGenerateCompile (calcFn : CalcFn) (env : Env) (st : St)
    (filePath directory fileName checksumsFilePath : String)
    (cachedChecksums : Option String) : PdfGenerateResult × St :=
  let r := latexMkRun env st directory (fileName ++ ".tex")
  match r.1 with
  | some pdfPath =>
    let st := r.2
    let st := match cachedChecksums with
      | some s => { st with fs := st.fs.writeFile checksumsFilePath s }
      | none =>
        { st with fs := st.fs.writeFile checksumsFilePath (calcFn st.fs filePath),
                  checksumsCalcs := st.checksumsCalcs + 1 }
    ({ builtFilePath := some pdfPath, wasCached := false,
       checksumsFilePath := some checksumsFilePath }, st)
  | none => ({ builtFilePath := none, wasCached := false, checksumsFilePath := none }, r.2)

/-- `PdfGenerator.generate` (`src/generators/pdf.ts` lines 79-149). -/
def pdfGenerate (cfg : LatexGeneratorCfg) (calcFn : CalcFn) (env : Env) (st : St)
    (filePath : String) (cacheDirectoryPath cachedFileName : Option String) :
    PdfGenerateResult × St :=
  let fileName := getFileName filePath
  let directory := dirname filePath
  let pdfFilePath := resolve2 directory (fileName ++ ".pdf")
  let checksumsFilePath := resolve2 directory (fileName ++ ".checksums")
  if st.fs.existsSync pdfFilePath && !cfg.generateIfExists then
    let st :=
      if !(st.fs.existsSync checksumsFilePath) then
        { st with fs := st.fs.writeFile checksumsFilePath (calcFn st.fs filePath),
                  checksumsCalcs := st.checksumsCalcs + 1 }
      else st
    ({ builtFilePath := some pdfFilePath, wasCached := true,
       checksumsFilePath := some checksumsFilePath }, st)
  else
    match cacheDirectoryPath with
    | some cd =>
      let cacheResult := getCacheInfo calcFn st.fs filePath cd cachedFileName
      let st := { st with checksumsCalcs := st.checksumsCalcs + 1 }
      if cacheResult.isFullyCached then
        let fs1 := st.fs.writeFile pdfFilePath (st.fs.readFile cacheResult.cachedPdfFilePath)
        let fs2 := fs1.writeFile checksumsFilePath
          (fs1.readFile cacheResult.cachedChecksumsFilePath)
        ({ builtFilePath := some pdfFilePath, wasCached := true,
           checksumsFilePath := some checksumsFilePath }, { st with fs := fs2 })
      else
        pdfGenerateCompile calcFn env st filePath directory fileName checksumsFilePath
          (some cacheResult.checksums)
    | none =>
      pdfGenerateCompile calcFn env st filePath directory fileName checksumsFilePath none

/-- Options of the old flat API (`src/generator.ts` `GenerateOptions`),
with the TS defaults of the call sites. -/
structure GenerateOptions where
  generateIfExists : Bool := true
  cacheDirectory : Option String := none
  cachedFileName : Option String := none
  clean : Bool := true

/-- The old flat `generatePdf` (`src/generator.ts` lines 104-163).  The
first branch tests `fs.existsSync(pdfFilePath) && options?.generateIfExists`
— the flag is NOT negated there (line 121), which this embedding keeps
faithfully. -/
def generatePdfFlat (opts : GenerateOptions) (calcFn : CalcFn) (env : Env) (st : St)
    (texFilePath : String) : PdfGenerateResult × St :=
  let fileName := getFileName texFilePath
  let directory := dirname texFilePath
  let pdfFilePath := resolve2 directory (fileName ++ ".pdf")
  let checksumsFilePath := resolve2 directory (fileName ++ ".checksums")
  if st.fs.existsSync pdfFilePath && opts.generateIfExists then
    let st :=
      if !(st.fs.existsSync checksumsFilePath) then
        { st with fs := st.fs.writeFile checksumsFilePath (calcFn st.fs texFilePath),
                  checksumsCalcs := st.checksumsCalcs + 1 }
      else st
    ({ builtFilePath := some pdfFilePath, wasCached := true,
       checksumsFilePath := some checksumsFilePath }, st)
  else
    match opts.cacheDirectory with
    | some cd =>
      let cacheResult := getCacheInfo calcFn st.fs texFilePath cd opts.cachedFileName
      let st := { st with checksumsCalcs := st.checksumsCalcs + 1 }
      if cacheResult.isFullyCached then
        let fs1 := st.fs.writeFile pdfFilePath (st.fs.readFile cacheResult.cachedPdfFilePath)
        let fs2 := fs1.writeFile checksumsFilePath
          (fs1.readFile cacheResult.cachedChecksumsFilePath)
        ({ builtFilePath := some pdfFilePath, wasCached := true,
           checksumsFilePath := some checksumsFilePath }, { st with fs := fs2 })
      else
        pdfGenerateCompile calcFn env st texFilePath directory fileName checksumsFilePath
          (some cacheResult.checksums)
    | none =>
      pdfGenerateCompile calcFn env st texFilePath directory fileName checksumsFilePath none

/-- `SvgGenerator.generate` (unnamed part 001, lines 98-163). -/
def svgGenerate (cfg : SvgGeneratorCfg) (calcFn : CalcFn) (env : Env) (st : St)
    (filePath : String) (cacheDirectoryPath cachedFileName : Option String) :
    GenerateResult × St :=
  let fileName := getFileName filePath
  let directory := dirname filePath
  let svgFilePath := resolve2 directory (fileName ++ ".svg")
  if st.fs.existsSync svgFilePath && !cfg.generateIfExists then
    ({ builtFilePath := some svgFilePath, wasCached := true }, st)
  else
    let st := { st with pdfGenerateCalls := st.pdfGenerateCalls + 1 }
    let pr := pdfGenerate cfg.toLatexGeneratorCfg calcFn env st filePath
      cacheDirectoryPath cachedFileName
    let st := pr.2
    match pr.1.builtFilePath with
    | none => ({ builtFilePath := none, wasCached := false }, st)
    | some pdfPath =>
      if !pr.1.wasCached || !(st.fs.existsSync svgFilePath) then
        let cr := pdfToCairoRun env st (dirname pdfPath) (fileName ++ ".pdf")
        let st := cr.2
        match cr.1 with
        | some sp =>
          let st :=
            if cfg.optimize then
              { st with fs := st.fs.writeFile sp (env.optimizeSvg sp (st.fs.readFile sp)) }
            else st
          ({ builtFilePath := some sp, wasCached := pr.1.wasCached }, st)
        | none => ({ builtFilePath := none, wasCached := pr.1.wasCached }, st)
      else ({ builtFilePath := some svgFilePath, wasCached := pr.1.wasCached }, st)

/-! ## Path distinctness helpers -/

theorem string_ne_of_getLast (s t : String) (c1 c2 : Char)
    (h1 : s.data.getLast? = some c1) (h2 : t.data.getLast? = some c2)
    (h : c1 ≠ c2) : s ≠ t := by
  intro he
  rw [he, h2, Option.some_inj] at h1
  exact h h1.symm

theorem getLast_cons_of_getLast (a : Char) (l : List Char) (c : Char)
    (h : l.getLast? = some c) : (a :: l).getLast? = some c := by
  cases l with
  | nil => simp at h
  | cons b t => rw [List.getLast?_cons_cons]; exact h

theorem resolve2_getLast (dir f : String) (c : Char) (hf : f.data.getLast? = some c) :
    (resolve2 dir f).data.getLast? = some c := by
  unfold resolve2
  split_ifs <;>
    simp [String.data_append, List.getLast?_append, hf, getLast_cons_of_getLast _ _ _ hf]

theorem append_getLast (n ext : String) (c : Char) (h : ext.data.getLast? = some c) :
    (n ++ ext).data.getLast? = some c := by
  simp [String.data_append, List.getLast?_append, h]

theorem pdf_path_ne_checksums_path (d1 n1 d2 n2 : String) :
    resolve2 d1 (n1 ++ ".pdf") ≠ resolve2 d2 (n2 ++ ".checksums") :=
  string_ne_of_getLast _ _ 'f' 's'
    (resolve2_getLast _ _ _ (append_getLast _ _ _ (by decide)))
    (resolve2_getLast _ _ _ (append_getLast _ _ _ (by decide)))
    (by decide)

/-! ## Claim C1 -/

/-- Claim C1: for every PDF build call given a cache directory (and not
short-circuited by an already-existing output PDF), a cache hit is
declared exactly when both the cached PDF and the cached sidecar exist
and the freshly computed fingerprint serialization is byte-for-byte
equal to the sidecar's contents; on a hit both files are copied into the
working output location and the result has `wasCached = true` with the
compiler never invoked; on a miss the compiler is invoked and the result
has `wasCached = false`. -/
theorem c1_cache_hit_iff_fingerprint_matches
    (cfg : LatexGeneratorCfg) (calcFn : CalcFn) (env : Env) (st : St)
    (filePath cd : String) (cachedFileName : Option String)
    (info : CacheResult) (r : PdfGenerateResult × St)
    (hinfo : info = getCacheInfo calcFn st.fs filePath cd cachedFileName)
    (hr : r = pdfGenerate cfg calcFn env st filePath (some cd) cachedFileName)
    (hEarly : ¬(st.fs.existsSync
      (resolve2 (dirname filePath) (getFileName filePath ++ ".pdf")) = true ∧
      cfg.generateIfExists = false)) :
    (info.isFullyCached
      = (st.fs.existsSync info.cachedPdfFilePath &&
         st.fs.existsSync info.cachedChecksumsFilePath &&
         (calcFn st.fs filePath = st.fs.readFile info.cachedChecksumsFilePath))) ∧
    (info.isFullyCached = true →
      r.1 = { builtFilePath :=
                some (resolve2 (dirname filePath) (getFileName filePath ++ ".pdf")),
              wasCached := true,
              checksumsFilePath :=
                some (resolve2 (dirname filePath) (getFileName filePath ++ ".checksums")) } ∧
      r.2.latexmkRuns = st.latexmkRuns ∧
      r.2.fs.files (resolve2 (dirname filePath) (getFileName filePath ++ ".pdf"))
        = some (st.fs.readFile info.cachedPdfFilePath) ∧
      r.2.fs.files (resolve2 (dirname filePath) (getFileName filePath ++ ".checksums"))
        = some (st.fs.readFile info.cachedChecksumsFilePath)) ∧
    (info.isFullyCached = false →
      r.1.wasCached = false ∧ r.2.latexmkRuns = st.latexmkRuns + 1) := by
  have hcond : (st.fs.existsSync
      (resolve2 (dirname filePath) (getFileName filePath ++ ".pdf")) &&
      !cfg.generateIfExists) = false := by
    cases h1 : st.fs.existsSync
      (resolve2 (dirname filePath) (getFileName filePath ++ ".pdf")) <;>
      cases h2 : cfg.generateIfExists <;> simp_all
  subst hinfo hr
  refine ⟨rfl, ?_, ?_⟩
  · intro hhit
    have h1 := pdf_path_ne_checksums_path (dirname filePath) (getFileName filePath)
      (dirname filePath) (getFileName filePath)
    have h2 := pdf_path_ne_checksums_path (dirname filePath) (getFileName filePath)
      cd (cachedFileName.getD (getFileName filePath))
    simp only [pdfGenerate, hcond, Bool.false_eq_true, if_false, hhit, if_true]
    refine ⟨by trivial, by trivial, ?_, ?_⟩
    · simp [Fs.writeFile, Fs.readFile, getCacheInfo, h1, h2, Ne.symm h2]
    · simp [Fs.writeFile, Fs.readFile, getCacheInfo, h1, h2, Ne.symm h2]
  · intro hmiss
    simp only [pdfGenerate, hcond, Bool.false_eq_true, if_false, hmiss, Bool.true_eq_false]
    cases hok : env.latexmkOk (dirname filePath) (getFileName filePath ++ ".tex") <;>
      simp [pdfGenerateCompile, latexMkRun, hok]

/-- A filesystem with a source, no local PDF, and a fully populated
cache directory whose sidecar matches the fingerprint of the source. -/
def fsC1 : Fs :=
  ⟨fun p =>
    if p = "/s/x.tex" then some "T"
    else if p = "/c/x.pdf" then some "P"
    else if p = "/c/x.checksums" then some "\x7b\"file:x\":\"T\"\x7d"
    else none,
   fun _ => none⟩

/-- A concrete checksums calculator: the flat calculator at fuel 1 with
the identity digest, serialized. -/
def calcFn1 : CalcFn :=
  fun fs p => jsonStringify (calculateTexFileChecksums 1 id fs [] defaultLatexIncludeCommands p none)

/-- An environment whose external tools always succeed. -/
def envOk : Env :=
  { latexmkOk := fun _ _ => true
    pdfContent := fun _ _ => "PDFNEW"
    pdftocairoOk := fun _ _ => true
    svgContent := fun _ _ => "SVG"
    optimizeSvg := fun _ c => c }

/-- Witness for C1 at a concrete populated cache: the early-exit guard
is off, the hit is declared, and the call is cached with the compiler
never invoked. -/
theorem c1_cache_hit_iff_fingerprint_matches_witness :
    (¬(Fs.existsSync { fs := fsC1 : St }.fs
      (resolve2 (dirname "/s/x.tex") (getFileName "/s/x.tex" ++ ".pdf")) = true ∧
      ({ } : LatexGeneratorCfg).generateIfExists = false)) ∧
    (getCacheInfo calcFn1 fsC1 "/s/x.tex" "/c" none).isFullyCached = true ∧
    (pdfGenerate { } calcFn1 envOk { fs := fsC1 } "/s/x.tex" (some "/c") none).1.wasCached
      = true ∧
    (pdfGenerate { } calcFn1 envOk { fs := fsC1 } "/s/x.tex" (some "/c") none).2.latexmkRuns
      = ({ fs := fsC1 : St }).latexmkRuns := by
  refine ⟨by decide, by decide, ?_⟩
  have h := c1_cache_hit_iff_fingerprint_matches { } calcFn1 envOk { fs := fsC1 }
    "/s/x.tex" "/c" none _ _ rfl rfl (by decide)
  have h2 := h.2.1 (by decide)
  exact ⟨by rw [h2.1], h2.2.1⟩

/-! ## Claim C2 -/

/-- A filesystem where the target PDF already exists next to the
source and no sidecar exists yet. -/
def fsC2 : Fs :=
  ⟨fun p =>
    if p = "/w/doc.tex" then some "T"
    else if p = "/w/doc.pdf" then some "PDF"
    else none,
   fun _ => none⟩

/-- Claim C2 (code bug in the old flat API): with the target PDF already
existing next to the source and the rebuild-if-exists flag false, the
old flat `generatePdf` (src/generator.ts line 121 tests
`options?.generateIfExists` without negation) invokes the compiler and
reports `wasCached = false`, contradicting the claim and the flag's own
documentation; the class-based `PdfGenerator.generate` at the same input
behaves as the claim states: cached result, sidecar repaired, and a
second identical call is also cached with the compiler never invoked. -/
theorem c2_flat_generate_pdf_rebuild_flag_not_negated :
    ((generatePdfFlat { generateIfExists := false } calcFn1 envOk { fs := fsC2 }
        "/w/doc.tex").1.wasCached = false ∧
     (generatePdfFlat { generateIfExists := false } calcFn1 envOk { fs := fsC2 }
        "/w/doc.tex").2.latexmkRuns = 1) ∧
    ((pdfGenerate { generateIfExists := false } calcFn1 envOk { fs := fsC2 }
        "/w/doc.tex" none none).1.wasCached = true ∧
     (pdfGenerate { generateIfExists := false } calcFn1 envOk { fs := fsC2 }
        "/w/doc.tex" none none).2.latexmkRuns = 0 ∧
     (pdfGenerate { generateIfExists := false } calcFn1 envOk { fs := fsC2 }
        "/w/doc.tex" none none).2.fs.files "/w/doc.checksums"
       = some (calcFn1 fsC2 "/w/doc.tex")) ∧
    ((pdfGenerate { generateIfExists := false } calcFn1 envOk
        (pdfGenerate { generateIfExists := false } calcFn1 envOk { fs := fsC2 }
          "/w/doc.tex" none none).2 "/w/doc.tex" none none).1.wasCached = true ∧
     (pdfGenerate { generateIfExists := false } calcFn1 envOk
        (pdfGenerate { generateIfExists := false } calcFn1 envOk { fs := fsC2 }
          "/w/doc.tex" none none).2 "/w/doc.tex" none none).2.latexmkRuns = 0) := by
  refine ⟨⟨?_, ?_⟩, ⟨?_, ?_, ?_⟩, ⟨?_, ?_⟩⟩ <;> decide

/-! ## Claim C7 -/

/-- Claim C7: for every SVG build call where the target SVG already
exists and the rebuild-if-exists flag is false, the call returns that
SVG path with `wasCached = true` immediately and the machine state is
untouched — in particular the PDF stage, the compiler and the
fingerprint computation are never invoked. -/
theorem c7_svg_exists_short_circuit
    (cfg : SvgGeneratorCfg) (calcFn : CalcFn) (env : Env) (st : St)
    (filePath : String) (cd cn : Option String)
    (hex : st.fs.existsSync
      (resolve2 (dirname filePath) (getFileName filePath ++ ".svg")) = true)
    (hgen : cfg.generateIfExists = false) :
    svgGenerate cfg calcFn env st filePath cd cn
      = ({ builtFilePath :=
             some (resolve2 (dirname filePath) (getFileName filePath ++ ".svg")),
           wasCached := true }, st) := by
  simp [svgGenerate, hex, hgen]

/-- A filesystem holding only an already-built SVG. -/
def fsC7 : Fs :=
  ⟨fun p => if p = "/s/y.svg" then some "S" else none, fun _ => none⟩

/-- Witness for C7: with `/s/y.svg` present and `generateIfExists`
false, the call returns the cached SVG and leaves the state unchanged. -/
theorem c7_svg_exists_short_circuit_witness :
    (Fs.existsSync { fs := fsC7 : St }.fs
      (resolve2 (dirname "/s/y.tex") (getFileName "/s/y.tex" ++ ".svg")) = true) ∧
    svgGenerate { generateIfExists := false } calcFn1 envOk { fs := fsC7 } "/s/y.tex"
        none none
      = ({ builtFilePath :=
             some (resolve2 (dirname "/s/y.tex") (getFileName "/s/y.tex" ++ ".svg")),
           wasCached := true }, { fs := fsC7 }) :=
  ⟨by decide,
   c7_svg_exists_short_circuit { generateIfExists := false } calcFn1 envOk { fs := fsC7 }
     "/s/y.tex" none none (by decide) rfl⟩

/-! ## Claim C9 -/

/-- Claim C9: for every SVG build call that reaches the PDF stage and
obtains a PDF, the returned `wasCached` flag equals the PDF stage's
`wasCached` flag; moreover when the PDF was cached but the SVG does not
exist, the PDF-to-SVG conversion is actually performed during the call
(the returned path is the conversion's outcome) while `wasCached` still
reports the PDF stage's flag. -/
theorem c9_svg_was_cached_propagates_pdf_flag
    (cfg : SvgGeneratorCfg) (calcFn : CalcFn) (env : Env) (st : St)
    (filePath : String) (cd cn : Option String) (p : String)
    (pr : PdfGenerateResult × St)
    (hpr : pr = pdfGenerate cfg.toLatexGeneratorCfg calcFn env
      { st with pdfGenerateCalls := st.pdfGenerateCalls + 1 } filePath cd cn)
    (hEarly : (st.fs.existsSync
      (resolve2 (dirname filePath) (getFileName filePath ++ ".svg")) &&
      !cfg.generateIfExists) = false)
    (hPdf : pr.1.builtFilePath = some p) :
    (svgGenerate cfg calcFn env st filePath cd cn).1.wasCached = pr.1.wasCached ∧
    (pr.1.wasCached = true →
      pr.2.fs.existsSync
        (resolve2 (dirname filePath) (getFileName filePath ++ ".svg")) = false →
      (svgGenerate cfg calcFn env st filePath cd cn).1.builtFilePath
        = (pdfToCairoRun env pr.2 (dirname p) (getFileName filePath ++ ".pdf")).1) := by
  subst hpr
  simp only [svgGenerate, hEarly, Bool.false_eq_true, if_false, hPdf]
  constructor
  · split_ifs with hconv <;>
      cases hcr : (pdfToCairoRun env
        (pdfGenerate cfg.toLatexGeneratorCfg calcFn env
          { st with pdfGenerateCalls := st.pdfGenerateCalls + 1 } filePath cd cn).2
        (dirname p) (getFileName filePath ++ ".pdf")).1 <;> simp [hcr]
  · intro hcached hmiss
    rw [if_pos (by simp [hcached, hmiss])]
    cases hcr : (pdfToCairoRun env
      (pdfGenerate cfg.toLatexGeneratorCfg calcFn env
        { st with pdfGenerateCalls := st.pdfGenerateCalls + 1 } filePath cd cn).2
      (dirname p) (getFileName filePath ++ ".pdf")).1 <;> simp [hcr]

/-- Witness for C9 at a concrete input: PDF cache hit while the SVG is
missing — conversion runs, yet the result reports `wasCached` from the
PDF stage. -/
theorem c9_svg_was_cached_propagates_pdf_flag_witness :
    ((Fs.existsSync { fs := fsC1 : St }.fs
      (resolve2 (dirname "/s/x.tex") (getFileName "/s/x.tex" ++ ".svg")) &&
      !({ } : SvgGeneratorCfg).generateIfExists) = false) ∧
    ((pdfGenerate ({ } : SvgGeneratorCfg).toLatexGeneratorCfg calcFn1 envOk
      { fs := fsC1, pdfGenerateCalls := 1 } "/s/x.tex" (some "/c") none).1.builtFilePath
      = some "/s/x.pdf") ∧
    ((svgGenerate { } calcFn1 envOk { fs := fsC1 } "/s/x.tex" (some "/c") none).1.wasCached
      = (pdfGenerate ({ } : SvgGeneratorCfg).toLatexGeneratorCfg calcFn1 envOk
          { fs := fsC1, pdfGenerateCalls := 1 } "/s/x.tex" (some "/c") none).1.wasCached) :=
  ⟨by decide, by decide,
   (c9_svg_was_cached_propagates_pdf_flag { } calcFn1 envOk { fs := fsC1 } "/s/x.tex"
     (some "/c") none "/s/x.pdf" _ rfl (by decide) (by decide)).1⟩

/-! ## Text scanning kit for the image extractor

`src/transformer/imageExtractor.ts` scans with the regular expression
`\\begin{<type>}([\s\S]*?)\\end{<type>}` (line 62, flags `sg`) and
replaces via `String.prototype.replace` with a string pattern, which
substitutes the first occurrence only.  The kit below implements the
scan and the replacement over `List Char`. -/

/-- `startsWith pat s`: `pat` is a prefix of `s`. -/
def startsWith : List Char → List Char → Bool
  | [], _ => true
  | _ :: _, [] => false
  | a :: p2, b :: s2 => a = b && startsWith p2 s2

/-- `pat` occurs somewhere in `s`. -/
def occursIn (pat s : List Char) : Prop :=
  ∃ k, startsWith pat (s.drop k) = true

theorem startsWith_append (p t : List Char) : startsWith p (p ++ t) = true := by
  induction p with
  | nil => rfl
  | cons a p2 ih => simp [startsWith, ih]

theorem startsWith_iff (p s : List Char) :
    startsWith p s = true ↔ ∃ t, s = p ++ t := by
  constructor
  · intro h
    induction p generalizing s with
    | nil => exact ⟨s, rfl⟩
    | cons a p2 ih =>
      cases s with
      | nil => simp [startsWith] at h
      | cons b s2 =>
        simp only [startsWith, Bool.and_eq_true, decide_eq_true_eq] at h
        obtain ⟨t, ht⟩ := ih s2 h.2
        exact ⟨t, by simp [h.1, ht]⟩
  · rintro ⟨t, rfl⟩
    exact startsWith_append p t

theorem startsWith_length_le (p s : List Char) (h : startsWith p s = true) :
    p.length ≤ s.length := by
  obtain ⟨t, rfl⟩ := (startsWith_iff p s).mp h
  simp

theorem startsWith_of_startsWith_append (a b s : List Char)
    (h : startsWith (a ++ b) s = true) : startsWith a s = true := by
  obtain ⟨t, rfl⟩ := (startsWith_iff _ s).mp h
  rw [List.append_assoc]
  exact startsWith_append a (b ++ t)

/-- A prefix check is determined by any long-enough initial segment. -/
theorem startsWith_append_det (p u v : List Char) (h : p.length ≤ u.length) :
    startsWith p (u ++ v) = startsWith p u := by
  induction p generalizing u with
  | nil => rfl
  | cons a p2 ih =>
    cases u with
    | nil => simp at h
    | cons b u2 =>
      simp only [List.cons_append, startsWith]
      rw [show u2.append v = u2 ++ v from rfl, ih u2 (by simpa using h)]

theorem startsWith_get (p s : List Char) (h : startsWith p s = true)
    (i : Nat) (hi : i < p.length) : s.get? i = p.get? i := by
  obtain ⟨t, rfl⟩ := (startsWith_iff p s).mp h
  rw [List.get?_append hi]

theorem startsWith_of_gets (p s : List Char) (hlen : p.length ≤ s.length)
    (h : ∀ i, i < p.length → s.get? i = p.get? i) : startsWith p s = true := by
  induction p generalizing s with
  | nil => rfl
  | cons a p2 ih =>
    cases s with
    | nil => simp at hlen
    | cons b s2 =>
      have h0 := h 0 (by simp)
      simp only [List.get?] at h0
      simp only [startsWith, Bool.and_eq_true, decide_eq_true_eq]
      refine ⟨by simpa using h0.symm, ?_⟩
      exact ih s2 (by simpa using hlen) (fun i hi => h (i + 1) (by simpa using hi))

/-- Splits `s` at the first position where `pat` starts: returns the
part before and the rest (which starts with `pat`). -/
def splitAtPattern (pat : List Char) : List Char → Option (List Char × List Char)
  | [] => if startsWith pat [] then some ([], []) else none
  | c :: t =>
    if startsWith pat (c :: t) then some ([], c :: t)
    else
      match splitAtPattern pat t with
      | some (a, b) => some (c :: a, b)
      | none => none

theorem splitAtPattern_sound (pat s a b : List Char)
    (h : splitAtPattern pat s = some (a, b)) :
    s = a ++ b ∧ startsWith pat b = true ∧
    ∀ k, k < a.length → startsWith pat (s.drop k) = false := by
  induction s generalizing a with
  | nil =>
    simp only [splitAtPattern] at h
    split_ifs at h with h1
    · simp only [Option.some_inj, Prod.mk.injEq] at h
      refine ⟨by simp [← h.1, ← h.2], by rw [← h.2]; exact h1, ?_⟩
      intro k hk
      rw [← h.1] at hk
      simp at hk
  | cons c t ih =>
    simp only [splitAtPattern] at h
    split_ifs at h with h1
    · simp only [Option.some_inj, Prod.mk.injEq] at h
      refine ⟨by simp [← h.1, ← h.2], by rw [← h.2]; exact h1, ?_⟩
      intro k hk
      rw [← h.1] at hk
      simp at hk
    · cases hsp : splitAtPattern pat t with
      | none => rw [hsp] at h; simp at h
      | some ab =>
        rw [hsp] at h
        simp only [Option.some_inj] at h
        obtain ⟨a2, b2⟩ := ab
        have hinj : a = c :: a2 ∧ b = b2 := by
          have h2 := h
          simp only [Prod.mk.injEq] at h2
          exact ⟨h2.1.symm, h2.2.symm⟩
        obtain ⟨rfl, rfl⟩ := hinj
        obtain ⟨ht, hb, hmin⟩ := ih a2 hsp
        refine ⟨by simp [ht], hb, ?_⟩
        intro k hk
        cases k with
        | zero => simpa using h1
        | succ k2 =>
          simp only [List.drop_succ_cons]
          exact hmin k2 (by simpa using hk)

theorem splitAtPattern_none (pat s : List Char) (hpat : pat ≠ [])
    (h : splitAtPattern pat s = none) :
    ∀ k, startsWith pat (s.drop k) = false := by
  induction s with
  | nil =>
    intro k
    simp only [splitAtPattern] at h
    split_ifs at h with h1
    simpa using h1
  | cons c t ih =>
    intro k
    simp only [splitAtPattern] at h
    split_ifs at h with h1
    cases hsp : splitAtPattern pat t with
    | none =>
      cases k with
      | zero => simpa using h1
      | succ k2 => simpa using ih (by rw [hsp]) k2
    | some ab => rw [hsp] at h; simp at h

/-- The non-overlapping scan of `\begin{type}...\end{type}` blocks with
lazy inner content and `lastIndex` resumption: returns the list of
(gap, match text) segments and the trailing rest. -/
def scanBlocksAux (bp ep : List Char) : Nat → List Char → List (List Char × List Char) × List Char
  | 0, s => ([], s)
  | fuel + 1, s =>
    match splitAtPattern bp s with
    | none => ([], s)
    | some (gap, rest) =>
      match splitAtPattern ep (rest.drop bp.length) with
      | none => ([], s)
      | some (inner, rest2) =>
        let r := scanBlocksAux bp ep fuel (rest2.drop ep.length)
        ((gap, bp ++ inner ++ ep) :: r.1, r.2)

/-- The match text is well formed: it is `bp ++ inner ++ ep` where `ep`
does not occur before the final position. -/
def wfBlock (bp ep m : List Char) : Prop :=
  ∃ inner, m = bp ++ inner ++ ep ∧
    ∀ k, k < inner.length → startsWith ep ((inner ++ ep).drop k) = false

/-- The gap before a match contains no start of `bp`, even into the
first characters of the match. -/
def gapOK (bp : List Char) (g m : List Char) : Prop :=
  ∀ k, k < g.length → startsWith bp ((g ++ m).drop k) = false

/-- Reassembles the segment decomposition into the original text. -/
def reassemble : List (List Char × List Char) → List Char → List Char
  | [], trailing => trailing
  | (g, m) :: rest, trailing => g ++ m ++ reassemble rest trailing

theorem drop_append_of_le {α : Type} (u v : List α) (k : Nat) (h : k ≤ u.length) :
    (u ++ v).drop k = u.drop k ++ v := by
  rw [List.drop_append_eq_append_drop]
  rw [Nat.sub_eq_zero_of_le h]
  simp

theorem scanBlocksAux_sound (bp ep : List Char)
    (hbp : bp ≠ []) (hep : ep ≠ []) :
    ∀ (fuel : Nat) (s : List Char),
    s = reassemble (scanBlocksAux bp ep fuel s).1 (scanBlocksAux bp ep fuel s).2 ∧
    (∀ gm ∈ (scanBlocksAux bp ep fuel s).1, wfBlock bp ep gm.2 ∧ gapOK bp gm.1 gm.2) := by
  intro fuel
  induction fuel with
  | zero => intro s; exact ⟨rfl, by simp [scanBlocksAux]⟩
  | succ fuel ih =>
    intro s
    cases hsp : splitAtPattern bp s with
    | none =>
      have hmain : scanBlocksAux bp ep (fuel + 1) s = ([], s) := by
        simp only [scanBlocksAux, hsp]
      rw [hmain]
      exact ⟨rfl, by simp⟩
    | some gr =>
      obtain ⟨gap, rest⟩ := gr
      obtain ⟨hs, hbrest, hgap⟩ := splitAtPattern_sound bp s gap rest hsp
      cases hsp2 : splitAtPattern ep (rest.drop bp.length) with
      | none =>
        have hmain : scanBlocksAux bp ep (fuel + 1) s = ([], s) := by
          simp only [scanBlocksAux, hsp, hsp2]
        rw [hmain]
        exact ⟨rfl, by simp⟩
      | some ir =>
        obtain ⟨inner, rest2⟩ := ir
        have hmain : scanBlocksAux bp ep (fuel + 1) s
            = ((gap, bp ++ inner ++ ep) :: (scanBlocksAux bp ep fuel (rest2.drop ep.length)).1,
               (scanBlocksAux bp ep fuel (rest2.drop ep.length)).2) := by
          simp only [scanBlocksAux, hsp, hsp2]
        rw [hmain]
        obtain ⟨hrest, heprest2, hinner⟩ :=
          splitAtPattern_sound ep (rest.drop bp.length) inner rest2 hsp2
        obtain ⟨t2, ht2⟩ := (startsWith_iff ep rest2).mp heprest2
        obtain ⟨t1, ht1⟩ := (startsWith_iff bp rest).mp hbrest
        have hrest_decomp : rest = bp ++ inner ++ ep ++ t2 := by
          rw [ht1]
          have : t1 = inner ++ rest2 := by
            have := hrest
            rw [ht1] at this
            simpa [List.drop_left] using this
          rw [this, ht2]
          simp
        have hafter : rest2.drop ep.length = t2 := by
          rw [ht2]
          simp [List.drop_left]
        obtain ⟨ihs, ihwf⟩ := ih (rest2.drop ep.length)
        constructor
        · simp only [reassemble]
          rw [← ihs, hafter, hs, hrest_decomp]
          simp
        · intro gm hgm
          simp only [List.mem_cons] at hgm
          rcases hgm with rfl | hgm2
          · show wfBlock bp ep (bp ++ inner ++ ep) ∧ gapOK bp gap (bp ++ inner ++ ep)
            constructor
            · refine ⟨inner, rfl, ?_⟩
              intro k hk
              have hk2 := hinner k hk
              have hdrop : (rest.drop bp.length).drop k = ((inner ++ ep).drop k) ++ t2 := by
                rw [hrest_decomp]
                simp only [List.append_assoc, List.drop_left]
                rw [← List.append_assoc inner ep t2]
                exact drop_append_of_le (inner ++ ep) t2 k
                  (by simp; omega)
              rw [hdrop] at hk2
              rw [startsWith_append_det ep _ t2 (by
                simp only [List.length_drop, List.length_append]
                omega)] at hk2
              exact hk2
            · intro k hk
              have hk2 := hgap k hk
              have hdrop : s.drop k = (gap ++ (bp ++ inner ++ ep)).drop k ++ t2 := by
                rw [hs, hrest_decomp]
                simp only [← List.append_assoc]
                exact drop_append_of_le (gap ++ bp ++ inner ++ ep) t2 k
                  (by simp only [List.length_append]; omega)
              rw [hdrop] at hk2
              rw [startsWith_append_det bp _ t2 (by
                simp only [List.length_drop, List.length_append]
                have hbplen : bp.length ≤ (bp ++ inner ++ ep).length := by simp
                omega)] at hk2
              exact hk2
          · exact ihwf gm hgm2

/-- `String.prototype.replace` with a string pattern: replace the first
occurrence of `pat` by `rep`, or return the text unchanged when `pat`
does not occur. -/
def replaceFirstL (pat rep : List Char) : List Char → List Char
  | [] => if startsWith pat [] then rep else []
  | c :: t =>
    if startsWith pat (c :: t) then rep ++ (c :: t).drop pat.length
    else c :: replaceFirstL pat rep t

theorem replaceFirstL_at (pat rep A B : List Char) (hpat : pat ≠ [])
    (hA : ∀ k, k < A.length → startsWith pat ((A ++ (pat ++ B)).drop k) = false) :
    replaceFirstL pat rep (A ++ (pat ++ B)) = A ++ rep ++ B := by
  induction A with
  | nil =>
    simp only [List.nil_append]
    cases hp : pat ++ B with
    | nil => simp_all
    | cons c t =>
      rw [replaceFirstL]
      rw [← hp, if_pos (startsWith_append pat B)]
      simp [List.drop_left]
  | cons c A2 ih =>
    have h0 : startsWith pat (c :: (A2 ++ (pat ++ B))) = false := by
      simpa using hA 0 (by simp)
    simp only [List.cons_append, replaceFirstL]
    rw [if_neg (by simp [h0])]
    rw [show A2.append (pat ++ B) = A2 ++ (pat ++ B) from rfl]
    rw [ih (fun k hk => by
      have := hA (k + 1) (by simpa using hk)
      simpa using this)]

theorem replaceFirstL_not_found (pat rep : List Char) (hpat : pat ≠ []) :
    ∀ s, (∀ k, startsWith pat (s.drop k) = false) → replaceFirstL pat rep s = s := by
  intro s
  induction s with
  | nil =>
    intro h
    rw [replaceFirstL, if_neg (by simpa using h 0)]
  | cons c t ih =>
    intro h
    rw [replaceFirstL, if_neg (by simpa using h 0)]
    rw [ih (fun k => by simpa using h (k + 1))]

/-- Structure of the `\begin{type}` / `\end{type}` markers: both start
with the only backslash they contain, and they differ at index 1. -/
def markersOK (bp ep : List Char) : Prop :=
  (∃ bchars, bp = '\\' :: bchars ∧ '\\' ∉ bchars ∧ bchars ≠ []) ∧
  (∃ echars, ep = '\\' :: echars ∧ '\\' ∉ echars ∧ echars ≠ []) ∧
  bp.get? 1 ≠ ep.get? 1

theorem tail_no_backslash (p pc : List Char) (hp : p = '\\' :: pc) (hnb : '\\' ∉ pc)
    (i : Nat) (h1 : 1 ≤ i) : p.get? i ≠ some '\\' := by
  subst hp
  cases i with
  | zero => omega
  | succ i2 =>
    simp only [List.get?]
    intro hc
    exact hnb (List.get?_mem hc)

/-- An occurrence of a well-formed block text `mi` starting strictly
inside another well-formed block text `mj` is contained in `mj` (and so
`mi` occurs in `mj` itself). -/
theorem block_occurrence_contained (bp ep mj mi C : List Char) (k : Nat)
    (hM : markersOK bp ep)
    (hj : wfBlock bp ep mj) (hi : wfBlock bp ep mi)
    (hk : k < mj.length)
    (hocc : startsWith mi ((mj ++ C).drop k) = true) :
    k + mi.length ≤ mj.length ∧ startsWith mi (mj.drop k) = true := by
  obtain ⟨⟨bchars, hbp, hbnb, hbne⟩, ⟨echars, hepd, henb, hene⟩, hne1⟩ := hM
  obtain ⟨innerj, hmj, hPj⟩ := hj
  obtain ⟨inneri, hmi, hPi⟩ := hi
  have hbplen : 2 ≤ bp.length := by
    rw [hbp]; cases bchars with
    | nil => simp at hbne
    | cons a t => simp
  have heplen : 2 ≤ ep.length := by
    rw [hepd]; cases echars with
    | nil => simp at hene
    | cons a t => simp
  have hmilen : mi.length = bp.length + inneri.length + ep.length := by
    rw [hmi]; simp; omega
  have hmjlen : mj.length = bp.length + innerj.length + ep.length := by
    rw [hmj]; simp; omega
  have hTocc : ∀ i, i < mi.length → (mj ++ C).get? (k + i) = mi.get? i := by
    intro i hilt
    have h := startsWith_get mi _ hocc i hilt
    rw [List.get?_drop] at h
    exact h
  have hmjget : ∀ n, n < mj.length → (mj ++ C).get? n = mj.get? n := by
    intro n h
    exact List.get?_append h
  have hmi0 : mi.get? 0 = some '\\' := by
    rw [hmi, hbp]; rfl
  have hmib : ∀ o, o < bp.length → mi.get? o = bp.get? o := by
    intro o ho
    rw [hmi, List.append_assoc]
    exact List.get?_append ho
  have hmjb : ∀ o, o < bp.length → mj.get? o = bp.get? o := by
    intro o ho
    rw [hmj, List.append_assoc]
    exact List.get?_append ho
  have hmiInner : ∀ j, mi.get? (bp.length + j) = (inneri ++ ep).get? j := by
    intro j
    rw [hmi, List.append_assoc, List.get?_append_right (by omega)]
    congr 1
    omega
  have hmjInner : ∀ j, mj.get? (bp.length + j) = (innerj ++ ep).get? j := by
    intro j
    rw [hmj, List.append_assoc, List.get?_append_right (by omega)]
    congr 1
    omega
  have hmie : ∀ i, mi.get? (bp.length + inneri.length + i) = ep.get? i := by
    intro i
    rw [hmi, List.get?_append_right (by simp)]
    congr 1
    simp
  have hmjq0 : ∀ i, mj.get? (bp.length + innerj.length + i) = ep.get? i := by
    intro i
    rw [hmj, List.get?_append_right (by simp)]
    congr 1
    simp
  have hep0 : ep.get? 0 = some '\\' := by rw [hepd]; rfl
  -- Step 1: the occurrence starts before the final end marker of mj.
  have hmjk : mj.get? k = some '\\' := by
    have h := hTocc 0 (by omega)
    rw [Nat.add_zero, hmjget k hk, hmi0] at h
    exact h
  have hstep1 : k < bp.length + innerj.length := by
    rcases Nat.lt_trichotomy k (bp.length + innerj.length) with h | h | h
    · exact h
    · exfalso
      have h1 : mi.get? 1 = bp.get? 1 := hmib 1 (by omega)
      have h2 := hTocc 1 (by omega)
      rw [h1] at h2
      have h3 : (mj ++ C).get? (k + 1) = ep.get? 1 := by
        rw [hmjget (k + 1) (by omega), h, hmjq0 1]
      rw [h3] at h2
      exact hne1 h2.symm
    · exfalso
      have hik : k - (bp.length + innerj.length) ≥ 1 := by omega
      have h2 : mj.get? (bp.length + innerj.length + (k - (bp.length + innerj.length)))
          = ep.get? (k - (bp.length + innerj.length)) := hmjq0 _
      rw [show bp.length + innerj.length + (k - (bp.length + innerj.length)) = k by omega] at h2
      rw [hmjk] at h2
      exact tail_no_backslash ep echars hepd henb _ hik h2.symm
  -- Step 2: the begin marker of the occurrence fits before mj's end marker.
  have hstep2 : k + bp.length ≤ bp.length + innerj.length := by
    by_contra hcon
    have ho1 : 1 ≤ bp.length + innerj.length - k := by omega
    have ho2 : bp.length + innerj.length - k < bp.length := by omega
    have h1 : mi.get? (bp.length + innerj.length - k) = bp.get? (bp.length + innerj.length - k) :=
      hmib _ ho2
    have h2 := hTocc (bp.length + innerj.length - k) (by omega)
    rw [show k + (bp.length + innerj.length - k) = bp.length + innerj.length + 0 by omega,
      hmjget _ (by omega), hmjq0 0, hep0] at h2
    rw [h1] at h2
    exact tail_no_backslash bp bchars hbp hbnb _ ho1 h2.symm
  -- Step 3: the end marker of the occurrence aligns with mj's end marker.
  have hstep3 : k + bp.length + inneri.length = bp.length + innerj.length := by
    rcases Nat.lt_trichotomy (k + bp.length + inneri.length) (bp.length + innerj.length)
      with h | h | h
    · exfalso
      have hi0lt : k + inneri.length < innerj.length := by omega
      have hsw : startsWith ep ((innerj ++ ep).drop (k + inneri.length)) = true := by
        apply startsWith_of_gets
        · simp only [List.length_drop, List.length_append]
          omega
        · intro i hilt
          rw [List.get?_drop]
          have e1 : (innerj ++ ep).get? (k + inneri.length + i)
              = mj.get? (bp.length + (k + inneri.length + i)) := (hmjInner _).symm
          rw [e1,
            show bp.length + (k + inneri.length + i) = k + (bp.length + inneri.length + i) by omega,
            ← hmjget _ (by omega), hTocc _ (by omega), hmie]
      exact absurd hsw (by simp [hPj _ hi0lt])
    · exact h
    · exfalso
      have hi1lt : bp.length + innerj.length - (k + bp.length) < inneri.length := by omega
      have hsw : startsWith ep
          ((inneri ++ ep).drop (bp.length + innerj.length - (k + bp.length))) = true := by
        apply startsWith_of_gets
        · simp only [List.length_drop, List.length_append]
          omega
        · intro i hilt
          rw [List.get?_drop]
          have e1 : (inneri ++ ep).get? (bp.length + innerj.length - (k + bp.length) + i)
              = mi.get? (bp.length + (bp.length + innerj.length - (k + bp.length) + i)) :=
            (hmiInner _).symm
          rw [e1, ← hTocc _ (by omega),
            show k + (bp.length + (bp.length + innerj.length - (k + bp.length) + i))
              = bp.length + innerj.length + i by omega,
            hmjget _ (by omega), hmjq0]
      exact absurd hsw (by simp [hPi _ hi1lt])
  have hfinal : k + mi.length ≤ mj.length := by omega
  refine ⟨hfinal, ?_⟩
  have hdrop : (mj ++ C).drop k = mj.drop k ++ C :=
    drop_append_of_le mj C k (by omega)
  rw [hdrop] at hocc
  rw [startsWith_append_det mi _ C (by simp only [List.length_drop]; omega)] at hocc
  exact hocc

/-- A replacement text (the image reference) starts with the only
backslash it contains, and differs from `bp` at index 1. -/
def repOK (bp rep : List Char) : Prop :=
  (∃ rchars, rep = '\\' :: rchars ∧ '\\' ∉ rchars) ∧
  2 ≤ rep.length ∧ rep.get? 1 ≠ bp.get? 1

/-- One scanned segment together with its build outcome: `some rep`
when the block built successfully (and `rep` is the image reference
inserted for it), `none` when the build failed. -/
abbrev OutSeg := (List Char × List Char) × Option (List Char)

/-- The text of a processed prefix: each gap followed by the block's
replacement on success, or its original text on failure. -/
def flatDone : List OutSeg → List Char
  | [] => []
  | p :: rest => p.1.1 ++ (p.2.getD p.1.2) ++ flatDone rest

/-- The sequential first-occurrence replacement over the match list, as
the extractor's loop performs it. -/
def foldReplace : List (List Char × Option (List Char)) → List Char → List Char
  | [], res => res
  | (m, some rep) :: rest, res => foldReplace rest (replaceFirstL m rep res)
  | (_, none) :: rest, res => foldReplace rest res

/-- Invariants of one segment: well-formed block, clean gap, and a
well-formed replacement on success. -/
def segOK (bp ep : List Char) (p : OutSeg) : Prop :=
  wfBlock bp ep p.1.2 ∧ gapOK bp p.1.1 p.1.2 ∧ ∀ r, p.2 = some r → repOK bp r

/-- The amended failure-clause side condition: a failed block's text
does not contain a later successful block's text. -/
def failSafe (p q : OutSeg) : Prop :=
  p.2 = none → q.2 ≠ none → ¬ occursIn q.1.2 p.1.2

theorem wfBlock_startsWith_bp (bp ep m s : List Char) (hm : wfBlock bp ep m)
    (h : startsWith m s = true) : startsWith bp s = true := by
  obtain ⟨inner, rfl, _⟩ := hm
  rw [List.append_assoc] at h
  exact startsWith_of_startsWith_append bp (inner ++ ep) s h

theorem wfBlock_length (bp ep m : List Char) (hm : wfBlock bp ep m) :
    bp.length + ep.length ≤ m.length := by
  obtain ⟨inner, rfl, _⟩ := hm
  simp

theorem wfBlock_get1 (bp ep m : List Char) (hbp2 : 2 ≤ bp.length)
    (hm : wfBlock bp ep m) : m.get? 1 = bp.get? 1 := by
  obtain ⟨inner, rfl, _⟩ := hm
  rw [List.append_assoc]
  exact List.get?_append (by omega)

theorem wfBlock_get0 (bp ep m : List Char) (bchars : List Char)
    (hbp : bp = '\\' :: bchars) (hm : wfBlock bp ep m) : m.get? 0 = some '\\' := by
  obtain ⟨inner, rfl, _⟩ := hm
  rw [hbp]
  rfl

/-- No occurrence of a (later, successful) well-formed block text `m`
starts inside a processed prefix, whatever text follows it. -/
theorem noStart_in_done (bp ep : List Char) (hM : markersOK bp ep)
    (m : List Char) (hm : wfBlock bp ep m) :
    ∀ (done : List OutSeg),
    (∀ p ∈ done, segOK bp ep p) →
    (∀ p ∈ done, failSafe p ((([], m), some []) : OutSeg)) →
    ∀ C k, k < (flatDone done).length →
    startsWith m ((flatDone done ++ C).drop k) = false := by
  have hbp2 : 2 ≤ bp.length := by
    obtain ⟨⟨bchars, hbp, _, hbne⟩, _, _⟩ := hM
    rw [hbp]; cases bchars with
    | nil => simp at hbne
    | cons a t => simp
  obtain ⟨⟨bchars, hbp, hbnb, hbne⟩, ⟨echars, hepd, henb, hene⟩, hne1⟩ := hM
  intro done
  induction done with
  | nil => intro _ _ C k hk; simp [flatDone] at hk
  | cons p rest ih =>
    intro hOK hFS C k hk
    obtain ⟨⟨g, mj⟩, o⟩ := p
    have hpOK := hOK ((g, mj), o) (by simp)
    obtain ⟨hwfj, hgapj, hrepj⟩ := hpOK
    simp only [flatDone] at hk ⊢
    simp only [List.length_append] at hk
    by_cases hcase : startsWith m ((g ++ (o.getD mj ++ flatDone rest) ++ C).drop k) = true
    swap
    · simp only [List.append_assoc] at hcase ⊢
      simpa using hcase
    exfalso
    have hT : (g ++ (o.getD mj ++ flatDone rest) ++ C) = g ++ ((o.getD mj) ++ (flatDone rest ++ C)) := by
      simp [List.append_assoc]
    rw [hT] at hcase
    rcases Nat.lt_or_ge k g.length with hkg | hkg
    · -- occurrence starts in the gap
      have hbpocc := wfBlock_startsWith_bp bp ep m _ hm hcase
      cases o with
      | none =>
        -- gap followed by the (failed, unchanged) block text
        simp only [Option.getD] at hbpocc
        have hd : (g ++ (mj ++ (flatDone rest ++ C))).drop k
            = ((g ++ mj).drop k) ++ (flatDone rest ++ C) := by
          rw [← List.append_assoc]
          exact drop_append_of_le (g ++ mj) _ k (by simp; omega)
        rw [hd] at hbpocc
        rw [startsWith_append_det bp _ _ (by
          simp only [List.length_drop, List.length_append]
          have := wfBlock_length bp ep mj hwfj
          omega)] at hbpocc
        exact absurd hbpocc (by simp [hgapj k hkg])
      | some rep =>
        -- gap followed by the replacement
        rcases le_or_lt (k + bp.length) g.length with hfit | hstr
        · have hd : (g ++ (rep ++ (flatDone rest ++ C))).drop k
              = (g.drop k) ++ (rep ++ (flatDone rest ++ C)) :=
            drop_append_of_le g _ k (by omega)
          simp only [Option.getD] at hbpocc
          rw [hd, startsWith_append_det bp _ _ (by simp; omega)] at hbpocc
          have hgap2 := hgapj k hkg
          have hd2 : (g ++ mj).drop k = (g.drop k) ++ mj :=
            drop_append_of_le g mj k (by omega)
          rw [hd2, startsWith_append_det bp _ _ (by simp; omega)] at hgap2
          exact absurd hbpocc (by simp [hgap2])
        · -- the begin marker would straddle into the replacement
          obtain ⟨⟨rchars, hrep, hrnb⟩, hrlen, hrne1⟩ := hrepj rep rfl
          have hchars := startsWith_get bp _ hbpocc (g.length - k) (by omega)
          rw [List.get?_drop] at hchars
          have hTg : (g ++ (rep ++ (flatDone rest ++ C))).get? (k + (g.length - k))
              = some '\\' := by
            rw [show k + (g.length - k) = g.length by omega,
              List.get?_append_right (le_refl g.length), Nat.sub_self]
            simp only [Option.getD, hrep]
            rfl
          simp only [Option.getD] at hchars
          rw [hTg] at hchars
          have hk1 : 1 ≤ g.length - k := by omega
          exact tail_no_backslash bp bchars hbp hbnb _ hk1 hchars.symm
    · rcases Nat.lt_or_ge k (g.length + (o.getD mj).length) with hkr | hkrest
      · -- occurrence starts inside the processed block position
        have hd : (g ++ ((o.getD mj) ++ (flatDone rest ++ C))).drop k
            = ((o.getD mj) ++ (flatDone rest ++ C)).drop (k - g.length) := by
          rw [List.drop_append_eq_append_drop]
          rw [List.drop_eq_nil_of_le (by omega)]
          simp
        rw [hd] at hcase
        cases o with
        | none =>
          simp only [Option.getD] at hcase hkr
          have hcont := block_occurrence_contained bp ep mj m (flatDone rest ++ C)
            (k - g.length) ⟨⟨bchars, hbp, hbnb, hbne⟩, ⟨echars, hepd, henb, hene⟩, hne1⟩
            hwfj hm (by omega) hcase
          have hFSp := hFS ((g, mj), none) (by simp)
          exact hFSp rfl (by simp) ⟨k - g.length, hcont.2⟩
        | some rep =>
          simp only [Option.getD] at hcase hkr
          obtain ⟨⟨rchars, hrep, hrnb⟩, hrlen, hrne1⟩ := hrepj rep rfl
          have hmlen := wfBlock_length bp ep m hm
          rcases Nat.eq_zero_or_pos (k - g.length) with hz | hpos
          · -- occurrence aligned with the replacement start: index 1 differs
            have h1 := startsWith_get m _ hcase 1 (by omega)
            rw [List.get?_drop, hz] at h1
            rw [wfBlock_get1 bp ep m hbp2 hm] at h1
            rw [show (0 : Nat) + 1 = 1 from rfl,
              List.get?_append (by omega)] at h1
            exact hrne1 h1
          · -- occurrence starting later would need a backslash in the tail
            have h0 := startsWith_get m _ hcase 0 (by omega)
            rw [List.get?_drop, Nat.add_zero] at h0
            rw [wfBlock_get0 bp ep m bchars hbp hm] at h0
            have hrep_at : (rep ++ (flatDone rest ++ C)).get? (k - g.length)
                = rep.get? (k - g.length) := List.get?_append (by omega)
            rw [hrep_at] at h0
            exact tail_no_backslash rep rchars hrep hrnb _ hpos h0
      · -- occurrence starts in the processed rest
        have hd : (g ++ ((o.getD mj) ++ (flatDone rest ++ C))).drop k
            = (flatDone rest ++ C).drop (k - g.length - (o.getD mj).length) := by
          rw [List.drop_append_eq_append_drop, List.drop_eq_nil_of_le (by omega)]
          simp only [List.nil_append, List.drop_append_eq_append_drop]
          rw [List.drop_eq_nil_of_le (by omega)]
          simp
        rw [hd] at hcase
        have := ih (fun q hq => hOK q (by simp [hq])) (fun q hq => hFS q (by simp [hq]))
          C (k - g.length - (o.getD mj).length) (by omega)
        exact absurd hcase (by simp [this])

theorem flatDone_append (a b : List OutSeg) :
    flatDone (a ++ b) = flatDone a ++ flatDone b := by
  induction a with
  | nil => rfl
  | cons p rest ih =>
    simp [flatDone, ih, List.append_assoc]

/-- Master theorem: the sequential first-occurrence replacements performed
by the extractor assemble the text positionally — each successful block's
span becomes its replacement, each failed block's span stays in place —
provided no failed block's text contains a later successful block's text. -/
theorem foldReplace_positional (bp ep : List Char) (hM : markersOK bp ep) :
    ∀ (todo done : List OutSeg) (trailing : List Char),
    (∀ p ∈ done, segOK bp ep p) →
    (∀ p ∈ todo, segOK bp ep p) →
    (∀ p ∈ done, ∀ q ∈ todo, failSafe p q) →
    List.Pairwise failSafe todo →
    foldReplace (todo.map (fun p => (p.1.2, p.2)))
      (flatDone done ++ reassemble (todo.map Prod.fst) trailing)
    = flatDone done ++ flatDone todo ++ trailing := by
  have hbp1 : 1 ≤ bp.length := by
    obtain ⟨⟨bchars, hbp, _, _⟩, _, _⟩ := hM
    rw [hbp]; simp
  intro todo
  induction todo with
  | nil =>
    intro done trailing _ _ _ _
    simp [foldReplace, reassemble, flatDone]
  | cons p0 rest ih =>
    intro done trailing hdOK htOK hDT hPW
    obtain ⟨⟨g, m⟩, o⟩ := p0
    have hp0OK := htOK ((g, m), o) (by simp)
    have hwf : wfBlock bp ep m := hp0OK.1
    have hgap : gapOK bp g m := hp0OK.2.1
    have hrepOK : ∀ r, o = some r → repOK bp r := hp0OK.2.2
    have hmlen := wfBlock_length bp ep m hwf
    have hmne : m ≠ [] := by
      intro hmnil
      rw [hmnil] at hmlen
      simp only [List.length_nil, Nat.le_zero] at hmlen
      omega
    have hPW2 := List.pairwise_cons.mp hPW
    -- the no-earlier-occurrence condition for the replacement position
    have hA : ∀ (hsucc : o ≠ none) (k : Nat),
        k < (flatDone done ++ g).length →
        startsWith m (((flatDone done ++ g) ++
          (m ++ reassemble (rest.map Prod.fst) trailing)).drop k) = false := by
      intro hsucc k hk
      simp only [List.length_append] at hk
      rcases Nat.lt_or_ge k (flatDone done).length with h1 | h1
      · have hns := noStart_in_done bp ep hM m hwf done hdOK
          (fun p hp hpn _ => hDT p hp ((g, m), o) (by simp) hpn hsucc)
          (g ++ (m ++ reassemble (rest.map Prod.fst) trailing)) k h1
        rw [List.append_assoc]
        exact hns
      · by_contra hc
        simp only [Bool.not_eq_false] at hc
        have hbpocc := wfBlock_startsWith_bp bp ep m _ hwf hc
        have hd : ((flatDone done ++ g) ++
            (m ++ reassemble (rest.map Prod.fst) trailing)).drop k
            = ((g ++ m).drop (k - (flatDone done).length)) ++
              reassemble (rest.map Prod.fst) trailing := by
          rw [show (flatDone done ++ g) ++
              (m ++ reassemble (rest.map Prod.fst) trailing)
            = flatDone done ++ ((g ++ m) ++
              reassemble (rest.map Prod.fst) trailing) by simp [List.append_assoc]]
          rw [List.drop_append_eq_append_drop, List.drop_eq_nil_of_le (by omega)]
          simp only [List.nil_append]
          exact drop_append_of_le (g ++ m) _ _ (by simp; omega)
        rw [hd, startsWith_append_det bp _ _ (by
          simp only [List.length_drop, List.length_append]
          omega)] at hbpocc
        exact absurd hbpocc (by simp [hgap (k - (flatDone done).length) (by omega)])
    cases o with
    | some rep =>
      have hrw : replaceFirstL m rep
          (flatDone done ++ (g ++ m ++ reassemble (List.map Prod.fst rest) trailing))
          = (flatDone done ++ (g ++ rep)) ++ reassemble (List.map Prod.fst rest) trailing := by
        rw [show flatDone done ++ (g ++ m ++ reassemble (List.map Prod.fst rest) trailing)
          = (flatDone done ++ g) ++ (m ++ reassemble (List.map Prod.fst rest) trailing)
          by simp [List.append_assoc]]
        rw [replaceFirstL_at m rep _ _ hmne (hA (by simp))]
        simp [List.append_assoc]
      have hstep := ih (done ++ [((g, m), some rep)]) trailing
        (by
          intro p hp
          rcases List.mem_append.mp hp with h | h
          · exact hdOK p h
          · simp at h
            subst h
            exact ⟨hwf, hgap, hrepOK⟩)
        (fun q hq => htOK q (by simp [hq]))
        (by
          intro p hp q hq
          rcases List.mem_append.mp hp with h | h
          · exact hDT p h q (by simp [hq])
          · simp at h
            subst h
            exact hPW2.1 q hq)
        hPW2.2
      simp only [List.map_cons, foldReplace, reassemble]
      rw [hrw]
      rw [show (flatDone done ++ (g ++ rep)) ++ reassemble (List.map Prod.fst rest) trailing
          = flatDone (done ++ [((g, m), some rep)]) ++ reassemble (List.map Prod.fst rest) trailing by
        rw [flatDone_append]
        simp [flatDone, List.append_assoc]]
      rw [hstep, flatDone_append]
      simp [flatDone, List.append_assoc]
    | none =>
      have hstep := ih (done ++ [((g, m), none)]) trailing
        (by
          intro p hp
          rcases List.mem_append.mp hp with h | h
          · exact hdOK p h
          · simp at h
            subst h
            exact ⟨hwf, hgap, hrepOK⟩)
        (fun q hq => htOK q (by simp [hq]))
        (by
          intro p hp q hq
          rcases List.mem_append.mp hp with h | h
          · exact hDT p h q (by simp [hq])
          · simp at h
            subst h
            exact hPW2.1 q hq)
        hPW2.2
      simp only [List.map_cons, foldReplace, reassemble]
      rw [show flatDone done ++ (g ++ m ++ reassemble (List.map Prod.fst rest) trailing)
          = flatDone (done ++ [((g, m), none)]) ++ reassemble (List.map Prod.fst rest) trailing by
        rw [flatDone_append]
        simp [flatDone, List.append_assoc]]
      rw [hstep, flatDone_append]
      simp [flatDone, List.append_assoc]

/-! ## The LaTeX image extractor (`src/transformer/imageExtractor.ts`) -/

/-- Decimal digits of a natural number (template literal `${i + 1}`). -/
def natToStrAux : Nat → Nat → List Char
  | 0, _ => []
  | fuel + 1, n =>
    if n < 10 then [Char.ofNat (48 + n)]
    else natToStrAux fuel (n / 10) ++ [Char.ofNat (48 + n % 10)]

def natToStr (n : Nat) : String :=
  String.mk (natToStrAux (n + 1) n)

/-- The begin marker `\begin\x7b<type>\x7d` of the extraction regex. -/
def beginMarker (ty : String) : List Char :=
  ("\\begin\x7b" ++ ty ++ "\x7d").data

/-- The end marker `\end\x7b<type>\x7d` of the extraction regex. -/
def endMarker (ty : String) : List Char :=
  ("\\end\x7b" ++ ty ++ "\x7d").data

/-- `replaceAll('\\', '/')` applied to the built file path. -/
def slashify (p : String) : String :=
  String.mk (p.data.map (fun c => if c = '\\' then '/' else c))

/-- The `\includegraphics\x7bfile://<path>\x7d` reference inserted for a
successfully built block. -/
def imageRef (builtFilePath : String) : List Char :=
  ("\\includegraphics\x7bfile://" ++ slashify builtFilePath ++ "\x7d").data

/-- A pluggable SVG builder: the extractor calls
`svgGenerator.generate(path, cacheDirectoryPath)`; the faithful
instantiation is `svgGenerate`. -/
abbrev SvgBuilder := St → String → Option String → GenerateResult × St

/-- `LatexImageExtractor` configuration: the image type and the
overridable methods.  The base-class defaults are: directory =
`path.dirname(extractedFrom)`, filename = `<type>-<i+1>.tex`, cache
directory = `null`. -/
structure LatexImageExtractorCfg where
  imageType : String
  renderContent : String → String → String
  getExtractedImageDirectoryPath : String → String → String
  getExtractedImageFilename : Nat → String
  getExtractedImageCacheDirectoryPath : String → String → Option String

/-- The base-class defaults of `LatexImageExtractor` for a given image
type and content renderer. -/
def defaultExtractorCfg (ty : String) (render : String → String → String) :
    LatexImageExtractorCfg :=
  { imageType := ty
    renderContent := render
    getExtractedImageDirectoryPath := fun extractedFrom _ => dirname extractedFrom
    getExtractedImageFilename := fun i => ty ++ "-" ++ natToStr (i + 1) ++ ".tex"
    getExtractedImageCacheDirectoryPath := fun _ _ => none }

/-- One iteration of the `while (match)` loop body of `extractImages`
(`imageExtractor.ts` lines 71-108): write the rendered block to the
extracted `.tex` path, run the SVG generator on it, and on success
return the image reference and delete the temporary file. -/
def extractStep (cfg : LatexImageExtractorCfg) (svgGen : SvgBuilder)
    (texFilePath : String) (m : List Char) (i : Nat) (st : St) :
    Option (List Char) × String × St :=
  let name := cfg.getExtractedImageFilename i
  let p := resolve2 (cfg.getExtractedImageDirectoryPath texFilePath name) name
  let st1 : St := { st with fs := st.fs.writeFile p (cfg.renderContent p (String.mk m)) }
  let r := svgGen st1 p (cfg.getExtractedImageCacheDirectoryPath texFilePath p)
  match r.1.builtFilePath with
  | some builtPath => (some (imageRef builtPath), p, { r.2 with fs := r.2.fs.rmFile p })
  | none => (none, p, r.2)

/-- The `while (match)` loop of `extractImages`: the match list is the
regex scan of the original content, the replacement is performed on the
evolving `result`. -/
def extractLoop (cfg : LatexImageExtractorCfg) (svgGen : SvgBuilder)
    (texFilePath : String) :
    List (List Char) → Nat → List Char → St → List Char × St
  | [], _, result, st => (result, st)
  | m :: rest, i, result, st =>
    match extractStep cfg svgGen texFilePath m i st with
    | (some rep, _, st2) =>
      extractLoop cfg svgGen texFilePath rest (i + 1) (replaceFirstL m rep result) st2
    | (none, _, st2) => extractLoop cfg svgGen texFilePath rest (i + 1) result st2

/-- `LatexImageExtractor.extractImages`. -/
def extractImages (cfg : LatexImageExtractorCfg) (svgGen : SvgBuilder)
    (latexContent texFilePath : String) (st : St) : String × St :=
  let cs := latexContent.data
  let bp := beginMarker cfg.imageType
  let ep := endMarker cfg.imageType
  let blocks := ((scanBlocksAux bp ep cs.length cs).1).map Prod.snd
  let r := extractLoop cfg svgGen texFilePath blocks 0 cs st
  (String.mk r.1, r.2)

/-- The outcome list of the loop: for each match, the replacement text
inserted on success (`none` on failure), together with the final state.
The state evolution does not depend on the evolving `result`. -/
def extractOutcomes (cfg : LatexImageExtractorCfg) (svgGen : SvgBuilder)
    (texFilePath : String) :
    List (List Char) → Nat → St → List (Option (List Char)) × St
  | [], _, st => ([], st)
  | m :: rest, i, st =>
    match extractStep cfg svgGen texFilePath m i st with
    | (o, _, st2) =>
      let u := extractOutcomes cfg svgGen texFilePath rest (i + 1) st2
      (o :: u.1, u.2)

theorem extractLoop_spec (cfg : LatexImageExtractorCfg) (svgGen : SvgBuilder)
    (texFilePath : String) :
    ∀ (blocks : List (List Char)) (i : Nat) (result : List Char) (st : St),
    extractLoop cfg svgGen texFilePath blocks i result st
      = (foldReplace (blocks.zip (extractOutcomes cfg svgGen texFilePath blocks i st).1) result,
         (extractOutcomes cfg svgGen texFilePath blocks i st).2) := by
  intro blocks
  induction blocks with
  | nil => intro i result st; rfl
  | cons m rest ih =>
    intro i result st
    cases hstep : extractStep cfg svgGen texFilePath m i st with
    | mk o pst2 =>
      obtain ⟨p2, st2⟩ := pst2
      cases o with
      | some rep =>
        simp only [extractLoop, extractOutcomes, hstep, List.zip_cons_cons, foldReplace]
        exact ih (i + 1) (replaceFirstL m rep result) st2
      | none =>
        simp only [extractLoop, extractOutcomes, hstep, List.zip_cons_cons, foldReplace]
        exact ih (i + 1) result st2

theorem extractOutcomes_length (cfg : LatexImageExtractorCfg) (svgGen : SvgBuilder)
    (texFilePath : String) :
    ∀ (blocks : List (List Char)) (i : Nat) (st : St),
    (extractOutcomes cfg svgGen texFilePath blocks i st).1.length = blocks.length := by
  intro blocks
  induction blocks with
  | nil => intro i st; rfl
  | cons m rest ih =>
    intro i st
    cases hstep : extractStep cfg svgGen texFilePath m i st with
    | mk o pst2 =>
      obtain ⟨p2, st2⟩ := pst2
      simp only [extractOutcomes, hstep, List.length_cons]
      rw [ih (i + 1) st2]

theorem extractStep_ref (cfg : LatexImageExtractorCfg) (svgGen : SvgBuilder)
    (texFilePath : String) (m : List Char) (i : Nat) (st : St) (r : List Char)
    (hr : (extractStep cfg svgGen texFilePath m i st).1 = some r) :
    ∃ bpath, r = imageRef bpath := by
  simp only [extractStep] at hr
  split at hr
  · simp only [Option.some_inj] at hr
    exact ⟨_, hr.symm⟩
  · simp at hr

theorem extractOutcomes_refs (cfg : LatexImageExtractorCfg) (svgGen : SvgBuilder)
    (texFilePath : String) :
    ∀ (blocks : List (List Char)) (i : Nat) (st : St),
    ∀ o ∈ (extractOutcomes cfg svgGen texFilePath blocks i st).1,
    ∀ r, o = some r → ∃ bpath, r = imageRef bpath := by
  intro blocks
  induction blocks with
  | nil => intro i st o ho; simp [extractOutcomes] at ho
  | cons m rest ih =>
    intro i st o ho r hr
    cases hstep : extractStep cfg svgGen texFilePath m i st with
    | mk o2 pst2 =>
      obtain ⟨p2, st2⟩ := pst2
      simp only [extractOutcomes, hstep, List.mem_cons] at ho
      rcases ho with rfl | ho2
      · exact extractStep_ref cfg svgGen texFilePath m i st r (by rw [hstep]; exact hr)
      · exact ih (i + 1) st2 o ho2 r hr

theorem beginMarker_eq (ty : String) :
    beginMarker ty
      = '\\' :: ('b' :: 'e' :: 'g' :: 'i' :: 'n' :: '\x7b' :: (ty.data ++ ['\x7d'])) := by
  show (("\\begin\x7b" : String) ++ ty ++ "\x7d").data = _
  rw [String.data_append, String.data_append]
  rfl

theorem endMarker_eq (ty : String) :
    endMarker ty
      = '\\' :: ('e' :: 'n' :: 'd' :: '\x7b' :: (ty.data ++ ['\x7d'])) := by
  show (("\\end\x7b" : String) ++ ty ++ "\x7d").data = _
  rw [String.data_append, String.data_append]
  rfl

theorem imageRef_eq (p : String) :
    imageRef p
      = '\\' :: ("includegraphics\x7bfile://".data ++ ((slashify p).data ++ ['\x7d'])) := by
  show (("\\includegraphics\x7bfile://" : String) ++ slashify p ++ "\x7d").data = _
  rw [String.data_append, String.data_append]
  rfl

theorem slashify_no_backslash (p : String) : '\\' ∉ (slashify p).data := by
  intro h
  have h2 : '\\' ∈ p.data.map (fun c => if c = '\\' then '/' else c) := h
  obtain ⟨c, _, hc⟩ := List.mem_map.mp h2
  by_cases hcb : c = '\\'
  · rw [if_pos hcb] at hc
    exact absurd hc (by decide)
  · rw [if_neg hcb] at hc
    exact hcb hc

/-- The extraction markers `\begin\x7bty\x7d` / `\end\x7bty\x7d` are
well formed whenever the image type contains no backslash. -/
theorem markersOK_of_type (ty : String) (hty : '\\' ∉ ty.data) :
    markersOK (beginMarker ty) (endMarker ty) := by
  refine ⟨⟨_, beginMarker_eq ty, ?_, by simp⟩, ⟨_, endMarker_eq ty, ?_, by simp⟩, ?_⟩
  · simp only [List.mem_cons, List.mem_append, List.mem_singleton]
    push_neg
    refine ⟨by decide, by decide, by decide, by decide, by decide, by decide, hty, by decide⟩
  · simp only [List.mem_cons, List.mem_append, List.mem_singleton]
    push_neg
    refine ⟨by decide, by decide, by decide, by decide, hty, by decide⟩
  · rw [beginMarker_eq, endMarker_eq]
    simp

/-- The inserted image reference is a well-formed replacement for the
begin marker: single leading backslash and a differing second
character. -/
theorem repOK_imageRef (ty p : String) : repOK (beginMarker ty) (imageRef p) := by
  refine ⟨⟨_, imageRef_eq p, ?_⟩, ?_, ?_⟩
  · simp only [List.mem_append, List.mem_singleton]
    push_neg
    refine ⟨by decide, slashify_no_backslash p, by decide⟩
  · rw [imageRef_eq]
    simp
  · rw [imageRef_eq, beginMarker_eq]
    simp

theorem zip_map_snd_eq {α β γ : Type} (a : List (α × β)) (c : List γ) :
    (a.map Prod.snd).zip c = (a.zip c).map (fun p => (p.1.2, p.2)) := by
  induction a generalizing c with
  | nil => simp
  | cons x t ih =>
    cases c with
    | nil => simp
    | cons y u => simp [ih]

theorem beginMarker_ne_nil (ty : String) : beginMarker ty ≠ [] := by
  rw [beginMarker_eq]
  simp

theorem endMarker_ne_nil (ty : String) : endMarker ty ≠ [] := by
  rw [endMarker_eq]
  simp

/-- C5 (amended): `extractImages` scans the original content for
`\begin\x7btype\x7d...\end\x7btype\x7d` blocks and performs one
first-occurrence string replacement per successfully built block.  When
no failed block's text contains a later successful block's text — in
particular when every build succeeds, or when no build succeeds — the
result is the positional assembly: each successful block's span is
replaced in place by its `\includegraphics\x7bfile://...\x7d` reference,
each failed block's span is left unchanged, and a content with no match
is returned entirely unchanged. -/
theorem c5_extract_images_positional
    (cfg : LatexImageExtractorCfg) (svgGen : SvgBuilder)
    (latexContent texFilePath : String) (st : St)
    (hty : '\\' ∉ cfg.imageType.data)
    (segs : List (List Char × List Char)) (trailing : List Char)
    (hsegs : scanBlocksAux (beginMarker cfg.imageType) (endMarker cfg.imageType)
      latexContent.data.length latexContent.data = (segs, trailing))
    (outcomes : List (Option (List Char)))
    (houtc : outcomes
      = (extractOutcomes cfg svgGen texFilePath (segs.map Prod.snd) 0 st).1)
    (hPW : List.Pairwise failSafe (segs.zip outcomes)) :
    (extractImages cfg svgGen latexContent texFilePath st).1
      = String.mk (flatDone (segs.zip outcomes) ++ trailing) ∧
    (segs = [] → (extractImages cfg svgGen latexContent texFilePath st).1 = latexContent) := by
  have hM := markersOK_of_type cfg.imageType hty
  have hsound := scanBlocksAux_sound (beginMarker cfg.imageType) (endMarker cfg.imageType)
    (beginMarker_ne_nil cfg.imageType) (endMarker_ne_nil cfg.imageType)
    latexContent.data.length latexContent.data
  rw [hsegs] at hsound
  obtain ⟨hre, hwfs⟩ := hsound
  have hre2 : latexContent.data = reassemble segs trailing := hre
  have hwfs2 : ∀ gm ∈ segs,
      wfBlock (beginMarker cfg.imageType) (endMarker cfg.imageType) gm.2 ∧
      gapOK (beginMarker cfg.imageType) gm.1 gm.2 := hwfs
  have hlen : segs.length ≤ outcomes.length := by
    rw [houtc, extractOutcomes_length]
    simp
  have hzip_fst : (segs.zip outcomes).map Prod.fst = segs :=
    List.map_fst_zip segs outcomes hlen
  have htOK : ∀ p ∈ segs.zip outcomes, segOK (beginMarker cfg.imageType)
      (endMarker cfg.imageType) p := by
    intro p hp
    obtain ⟨h1, h2⟩ := List.mem_zip hp
    refine ⟨(hwfs2 p.1 h1).1, (hwfs2 p.1 h1).2, ?_⟩
    intro r hr
    rw [houtc] at h2
    obtain ⟨bpath, rfl⟩ := extractOutcomes_refs cfg svgGen texFilePath
      (segs.map Prod.snd) 0 st p.2 h2 r hr
    exact repOK_imageRef cfg.imageType bpath
  have hmaster := foldReplace_positional (beginMarker cfg.imageType)
    (endMarker cfg.imageType) hM (segs.zip outcomes) [] trailing
    (by simp) htOK (by simp) hPW
  simp only [flatDone, List.nil_append] at hmaster
  rw [hzip_fst, ← zip_map_snd_eq] at hmaster
  have hmain : (extractImages cfg svgGen latexContent texFilePath st).1
      = String.mk (flatDone (segs.zip outcomes) ++ trailing) := by
    simp only [extractImages, hsegs]
    rw [extractLoop_spec, ← houtc]
    rw [← hre2] at hmaster
    rw [hmaster]
  refine ⟨hmain, ?_⟩
  intro h0
  subst h0
  rw [hmain]
  simp only [List.zip_nil_left, flatDone, List.nil_append]
  have : latexContent.data = trailing := by
    rw [hre]
    rfl
  rw [← this]

/-! ### C5 concrete instances -/

def c5cfg : LatexImageExtractorCfg := defaultExtractorCfg "t" (fun _ m => m)

def c5stEmpty : St := { fs := ⟨fun _ => none, fun _ => none⟩ }

/-- A builder that always succeeds with the same SVG path. -/
def c5genOk : SvgBuilder := fun st _ _ =>
  ({ builtFilePath := some "/d/o.svg", wasCached := false }, st)

/-- A builder that fails on the first extracted file (`/d/t-1.tex`) and
succeeds afterwards. -/
def c5genFailFirst : SvgBuilder := fun st p _ =>
  if p = "/d/t-1.tex" then ({ builtFilePath := none, wasCached := false }, st)
  else ({ builtFilePath := some "/d/o.svg", wasCached := false }, st)

/-- C5 counterexample: with two identical `\begin\x7bt\x7d...\end\x7bt\x7d`
blocks, where the first build fails and the second succeeds,
`String.prototype.replace` replaces the FIRST occurrence of the matched
text, so the image reference lands in the failed first block's span and
the second span keeps the raw block — not the claimed replacement of
each successful block in place with failed spans untouched. -/
theorem c5_counterexample_first_occurrence :
    (extractImages c5cfg c5genFailFirst
      "\\begin\x7bt\x7da\\end\x7bt\x7d\\begin\x7bt\x7da\\end\x7bt\x7d" "/d/m.tex" c5stEmpty).1
      = "\\includegraphics\x7bfile:///d/o.svg\x7d\\begin\x7bt\x7da\\end\x7bt\x7d" ∧
    (extractImages c5cfg c5genFailFirst
      "\\begin\x7bt\x7da\\end\x7bt\x7d\\begin\x7bt\x7da\\end\x7bt\x7d" "/d/m.tex" c5stEmpty).1
      ≠ "\\begin\x7bt\x7da\\end\x7bt\x7d\\includegraphics\x7bfile:///d/o.svg\x7d" := by
  constructor
  · decide
  · decide

/-- Pairwise-distinct match texts are NOT a sufficient side condition
for the positional assembly: with
`\begin\x7bt\x7dA\begin\x7bt\x7dB\end\x7bt\x7dx\begin\x7bt\x7dB\end\x7bt\x7d`
the two scanned match texts are distinct, yet the failed first block's
text contains the later successful block's text (a nested begin
marker), and the first-occurrence replacement again lands inside the
failed first span instead of the successful second span. -/
theorem c5_distinct_texts_insufficient :
    ((scanBlocksAux (beginMarker "t") (endMarker "t")
      "\\begin\x7bt\x7dA\\begin\x7bt\x7dB\\end\x7bt\x7dx\\begin\x7bt\x7dB\\end\x7bt\x7d".data.length
      "\\begin\x7bt\x7dA\\begin\x7bt\x7dB\\end\x7bt\x7dx\\begin\x7bt\x7dB\\end\x7bt\x7d".data).1.map
        Prod.snd
      = ["\\begin\x7bt\x7dA\\begin\x7bt\x7dB\\end\x7bt\x7d".data,
         "\\begin\x7bt\x7dB\\end\x7bt\x7d".data]) ∧
    "\\begin\x7bt\x7dA\\begin\x7bt\x7dB\\end\x7bt\x7d".data
      ≠ "\\begin\x7bt\x7dB\\end\x7bt\x7d".data ∧
    (extractImages c5cfg c5genFailFirst
      "\\begin\x7bt\x7dA\\begin\x7bt\x7dB\\end\x7bt\x7dx\\begin\x7bt\x7dB\\end\x7bt\x7d"
      "/d/m.tex" c5stEmpty).1
      = "\\begin\x7bt\x7dA\\includegraphics\x7bfile:///d/o.svg\x7dx\\begin\x7bt\x7dB\\end\x7bt\x7d" ∧
    (extractImages c5cfg c5genFailFirst
      "\\begin\x7bt\x7dA\\begin\x7bt\x7dB\\end\x7bt\x7dx\\begin\x7bt\x7dB\\end\x7bt\x7d"
      "/d/m.tex" c5stEmpty).1
      ≠ "\\begin\x7bt\x7dA\\begin\x7bt\x7dB\\end\x7bt\x7dx\\includegraphics\x7bfile:///d/o.svg\x7d" := by
  refine ⟨by decide, by decide, by decide, by decide⟩

theorem c5_extract_images_positional_witness :
    (extractImages c5cfg c5genOk "A\\begin\x7bt\x7dx\\end\x7bt\x7dB" "/d/m.tex" c5stEmpty).1
      = "A\\includegraphics\x7bfile:///d/o.svg\x7dB" := by
  have h := c5_extract_images_positional c5cfg c5genOk
    "A\\begin\x7bt\x7dx\\end\x7bt\x7dB" "/d/m.tex" c5stEmpty
    (by decide)
    [("A".data, "\\begin\x7bt\x7dx\\end\x7bt\x7d".data)] "B".data
    (by decide)
    [some (imageRef "/d/o.svg")]
    (by decide)
    (by simp)
  rw [h.1]
  decide

/-! ### C6: the temporary extracted `.tex` file -/

/-- The path of the temporary standalone `.tex` file written for the
`i`-th matched block
(`path.resolve(getExtractedImageDirectoryPath(texFilePath, name), name)`). -/
def tempPath (cfg : LatexImageExtractorCfg) (texFilePath : String) (i : Nat) : String :=
  resolve2 (cfg.getExtractedImageDirectoryPath texFilePath (cfg.getExtractedImageFilename i))
    (cfg.getExtractedImageFilename i)

/-- The builder never touches the temporary `.tex` path `i`.  The real
`svgGenerate` writes only `.pdf`, `.svg` and `.checksums` artifacts. -/
def preservesTemp (cfg : LatexImageExtractorCfg) (texFilePath : String)
    (svgGen : SvgBuilder) (i : Nat) : Prop :=
  ∀ st p cd, ((svgGen st p cd).2.fs.files (tempPath cfg texFilePath i))
    = st.fs.files (tempPath cfg texFilePath i)

theorem extractStep_fate (cfg : LatexImageExtractorCfg) (svgGen : SvgBuilder)
    (texFilePath : String) (m : List Char) (i : Nat) (st : St)
    (o : Option (List Char)) (p2 : String) (st2 : St)
    (h : extractStep cfg svgGen texFilePath m i st = (o, p2, st2)) :
    p2 = tempPath cfg texFilePath i ∧
    (o ≠ none → st2.fs.files (tempPath cfg texFilePath i) = none) ∧
    (o = none → preservesTemp cfg texFilePath svgGen i →
      st2.fs.files (tempPath cfg texFilePath i)
        = some (cfg.renderContent (tempPath cfg texFilePath i) (String.mk m))) := by
  simp only [extractStep] at h
  split at h
  · injection h with h1 h23
    injection h23 with h2 h3
    subst h1
    subst h2
    subst h3
    refine ⟨rfl, ?_, ?_⟩
    · intro _
      simp [Fs.rmFile, tempPath]
    · intro hno
      simp at hno
  · injection h with h1 h23
    injection h23 with h2 h3
    subst h1
    subst h2
    subst h3
    refine ⟨rfl, ?_, ?_⟩
    · intro hno
      simp at hno
    · intro _ hpt
      rw [hpt]
      simp [Fs.writeFile, tempPath]

theorem extractStep_frame (cfg : LatexImageExtractorCfg) (svgGen : SvgBuilder)
    (texFilePath : String) (m : List Char) (i : Nat) (st : St)
    (o : Option (List Char)) (p2 : String) (st2 : St) (j : Nat)
    (h : extractStep cfg svgGen texFilePath m i st = (o, p2, st2))
    (hpt : preservesTemp cfg texFilePath svgGen j)
    (hne : tempPath cfg texFilePath j ≠ tempPath cfg texFilePath i) :
    st2.fs.files (tempPath cfg texFilePath j) = st.fs.files (tempPath cfg texFilePath j) := by
  simp only [extractStep] at h
  split at h
  · injection h with h1 h23
    injection h23 with h2 h3
    subst h1
    subst h2
    subst h3
    simp only [Fs.rmFile]
    rw [if_neg (by exact_mod_cast hne)]
    rw [hpt]
    simp only [Fs.writeFile]
    rw [if_neg (by exact_mod_cast hne)]
  · injection h with h1 h23
    injection h23 with h2 h3
    subst h1
    subst h2
    subst h3
    rw [hpt]
    simp only [Fs.writeFile]
    rw [if_neg (by exact_mod_cast hne)]

theorem extractOutcomes_preserves_temp (cfg : LatexImageExtractorCfg)
    (svgGen : SvgBuilder) (texFilePath : String) (j : Nat)
    (hpt : preservesTemp cfg texFilePath svgGen j) :
    ∀ (blocks : List (List Char)) (i0 : Nat) (st : St),
    (∀ i, i0 ≤ i → i < i0 + blocks.length →
      tempPath cfg texFilePath j ≠ tempPath cfg texFilePath i) →
    (extractOutcomes cfg svgGen texFilePath blocks i0 st).2.fs.files
      (tempPath cfg texFilePath j)
    = st.fs.files (tempPath cfg texFilePath j) := by
  intro blocks
  induction blocks with
  | nil => intro i0 st _; rfl
  | cons m rest ih =>
    intro i0 st hne
    cases hstep : extractStep cfg svgGen texFilePath m i0 st with
    | mk o pst2 =>
      obtain ⟨p2, st2⟩ := pst2
      simp only [extractOutcomes, hstep]
      rw [ih (i0 + 1) st2 (fun i h1 h2 => hne i (by omega) (by simp; omega))]
      exact extractStep_frame cfg svgGen texFilePath m i0 st o p2 st2 j hstep hpt
        (hne i0 (le_refl i0) (by simp))

theorem extractOutcomes_temp_fate (cfg : LatexImageExtractorCfg)
    (svgGen : SvgBuilder) (texFilePath : String)
    (hptAll : ∀ i, preservesTemp cfg texFilePath svgGen i) :
    ∀ (blocks : List (List Char)) (i0 : Nat) (st : St),
    (∀ i j, i0 ≤ i → i < i0 + blocks.length → i0 ≤ j → j < i0 + blocks.length → i ≠ j →
      tempPath cfg texFilePath i ≠ tempPath cfg texFilePath j) →
    ∀ (k : Nat) (m : List Char) (o : Option (List Char)),
    blocks.get? k = some m →
    (extractOutcomes cfg svgGen texFilePath blocks i0 st).1.get? k = some o →
    (o ≠ none →
      (extractOutcomes cfg svgGen texFilePath blocks i0 st).2.fs.files
        (tempPath cfg texFilePath (i0 + k)) = none) ∧
    (o = none →
      (extractOutcomes cfg svgGen texFilePath blocks i0 st).2.fs.files
        (tempPath cfg texFilePath (i0 + k))
      = some (cfg.renderContent (tempPath cfg texFilePath (i0 + k)) (String.mk m))) := by
  intro blocks
  induction blocks with
  | nil => intro i0 st _ k m o hm; simp at hm
  | cons mh rest ih =>
    intro i0 st hinj k m o hm ho
    cases hstep : extractStep cfg svgGen texFilePath mh i0 st with
    | mk o2 pst2 =>
      obtain ⟨p2, st2⟩ := pst2
      simp only [extractOutcomes, hstep] at ho ⊢
      cases k with
      | zero =>
        simp only [List.get?] at hm ho
        obtain rfl := Option.some_inj.mp hm
        obtain rfl := Option.some_inj.mp ho
        obtain ⟨_, hsucc, hfail⟩ :=
          extractStep_fate cfg svgGen texFilePath mh i0 st o2 p2 st2 hstep
        have hpres : (extractOutcomes cfg svgGen texFilePath rest (i0 + 1) st2).2.fs.files
            (tempPath cfg texFilePath i0) = st2.fs.files (tempPath cfg texFilePath i0) :=
          extractOutcomes_preserves_temp cfg svgGen texFilePath i0 (hptAll i0)
            rest (i0 + 1) st2
            (fun i h1 h2 => hinj i0 i (le_refl i0) (by simp) (by omega)
              (by simp; omega) (by omega))
        constructor
        · intro hno
          rw [show i0 + 0 = i0 from rfl, hpres]
          exact hsucc hno
        · intro hno
          rw [show i0 + 0 = i0 from rfl, hpres]
          exact hfail hno (hptAll i0)
      | succ k2 =>
        simp only [List.get?] at hm ho
        have := ih (i0 + 1) st2
          (fun i j h1 h2 h3 h4 h5 => hinj i j (by omega) (by simp; omega)
            (by omega) (by simp; omega) h5)
          k2 m o hm ho
        rw [show i0 + (k2 + 1) = (i0 + 1) + k2 by omega]
        exact this

/-- C6 (amended): the temporary standalone `.tex` file written for a
matched block is deleted before `extractImages` returns exactly when
that block's SVG build succeeded; when the build fails, `fs.rmSync` is
never reached (it sits inside the `if (generateResult.builtFilePath)`
branch) and the file remains on disk with the rendered content. -/
theorem c6_temp_file_removed_only_on_success
    (cfg : LatexImageExtractorCfg) (svgGen : SvgBuilder)
    (latexContent texFilePath : String) (st : St)
    (blocks : List (List Char))
    (hblocks : blocks = ((scanBlocksAux (beginMarker cfg.imageType)
      (endMarker cfg.imageType) latexContent.data.length latexContent.data).1).map Prod.snd)
    (hptAll : ∀ i, preservesTemp cfg texFilePath svgGen i)
    (hinj : ∀ i j, i < blocks.length → j < blocks.length → i ≠ j →
      tempPath cfg texFilePath i ≠ tempPath cfg texFilePath j)
    (k : Nat) (m : List Char) (o : Option (List Char))
    (hm : blocks.get? k = some m)
    (ho : (extractOutcomes cfg svgGen texFilePath blocks 0 st).1.get? k = some o) :
    (o ≠ none →
      (extractImages cfg svgGen latexContent texFilePath st).2.fs.files
        (tempPath cfg texFilePath k) = none) ∧
    (o = none →
      (extractImages cfg svgGen latexContent texFilePath st).2.fs.files
        (tempPath cfg texFilePath k)
      = some (cfg.renderContent (tempPath cfg texFilePath k) (String.mk m))) := by
  have hfate := extractOutcomes_temp_fate cfg svgGen texFilePath hptAll blocks 0 st
    (fun i j h1 h2 h3 h4 h5 => hinj i j (by omega) (by omega) h5)
    k m o hm ho
  have hst : (extractImages cfg svgGen latexContent texFilePath st).2
      = (extractOutcomes cfg svgGen texFilePath blocks 0 st).2 := by
    simp only [extractImages]
    rw [← hblocks, extractLoop_spec]
  rw [hst]
  rw [show (0 : Nat) + k = k from by omega] at hfate
  exact hfate

/-! ### C6 concrete instances -/

def c6cfg : LatexImageExtractorCfg := defaultExtractorCfg "t" (fun _ m => m)

def c6stEmpty : St := { fs := ⟨fun _ => none, fun _ => none⟩ }

/-- A builder that always fails and leaves the state unchanged. -/
def c6genFail : SvgBuilder := fun st _ _ =>
  ({ builtFilePath := none, wasCached := false }, st)

/-- A builder failing on the first temporary file and succeeding on the
others, never touching the state. -/
def c6genFailFirst : SvgBuilder := fun st p _ =>
  ((if p = "/d/t-1.tex" then { builtFilePath := none, wasCached := false }
    else { builtFilePath := some "/d/o.svg", wasCached := false }), st)

/-- C6 counterexample: when the block's build fails, the temporary
`.tex` file written for it is still on disk after `extractImages`
returns, holding the rendered block content — the deletion is only
executed on success, not "regardless of outcome". -/
theorem c6_counterexample_file_left_on_failure :
    ((extractImages c6cfg c6genFail "\\begin\x7bt\x7da\\end\x7bt\x7d" "/d/m.tex"
        c6stEmpty).2.fs.files "/d/t-1.tex")
      = some "\\begin\x7bt\x7da\\end\x7bt\x7d" ∧
    (extractOutcomes c6cfg c6genFail "/d/m.tex"
      ["\\begin\x7bt\x7da\\end\x7bt\x7d".data] 0 c6stEmpty).1 = [none] := by
  constructor
  · decide
  · decide

theorem c6_temp_file_removed_only_on_success_witness :
    ((extractImages c6cfg c6genFailFirst
        "\\begin\x7bt\x7da\\end\x7bt\x7d\\begin\x7bt\x7da\\end\x7bt\x7d" "/d/m.tex"
        c6stEmpty).2.fs.files (tempPath c6cfg "/d/m.tex" 0))
      = some (c6cfg.renderContent (tempPath c6cfg "/d/m.tex" 0)
          (String.mk "\\begin\x7bt\x7da\\end\x7bt\x7d".data)) ∧
    ((extractImages c6cfg c6genFailFirst
        "\\begin\x7bt\x7da\\end\x7bt\x7d\\begin\x7bt\x7da\\end\x7bt\x7d" "/d/m.tex"
        c6stEmpty).2.fs.files (tempPath c6cfg "/d/m.tex" 1)) = none := by
  have h1 := c6_temp_file_removed_only_on_success c6cfg c6genFailFirst
    "\\begin\x7bt\x7da\\end\x7bt\x7d\\begin\x7bt\x7da\\end\x7bt\x7d" "/d/m.tex" c6stEmpty
    ["\\begin\x7bt\x7da\\end\x7bt\x7d".data, "\\begin\x7bt\x7da\\end\x7bt\x7d".data]
    (by decide)
    (fun _ _ _ _ => rfl)
    (by
      have hb : ∀ i, i < 2 → ∀ j, j < 2 → i ≠ j →
          tempPath c6cfg "/d/m.tex" i ≠ tempPath c6cfg "/d/m.tex" j := by decide
      exact fun i j hi hj => hb i (by simpa using hi) j (by simpa using hj))
    0 "\\begin\x7bt\x7da\\end\x7bt\x7d".data none (by decide) (by decide)
  have h2 := c6_temp_file_removed_only_on_success c6cfg c6genFailFirst
    "\\begin\x7bt\x7da\\end\x7bt\x7d\\begin\x7bt\x7da\\end\x7bt\x7d" "/d/m.tex" c6stEmpty
    ["\\begin\x7bt\x7da\\end\x7bt\x7d".data, "\\begin\x7bt\x7da\\end\x7bt\x7d".data]
    (by decide)
    (fun _ _ _ _ => rfl)
    (by
      have hb : ∀ i, i < 2 → ∀ j, j < 2 → i ≠ j →
          tempPath c6cfg "/d/m.tex" i ≠ tempPath c6cfg "/d/m.tex" j := by decide
      exact fun i j hi hj => hb i (by simpa using hi) j (by simpa using hj))
    1 "\\begin\x7bt\x7da\\end\x7bt\x7d".data (some (imageRef "/d/o.svg"))
    (by decide) (by decide)
  exact ⟨h1.2 rfl, h2.1 (by simp)⟩

/-! ## The Pandoc transformer (`src/transformer/transformer.ts`) -/

/-- `path.basename`. -/
def basenameStr (p : String) : String :=
  String.mk (baseNameChars p)

/-- `path.extname`: the suffix of the basename from its last dot, empty
for dotless or leading-dot names. -/
def extname (p : String) : String :=
  let base := baseNameChars p
  let r := base.reverse
  let pre := r.takeWhile (fun c => c ≠ '.')
  if pre.length = r.length then ""
  else if pre.length + 1 = r.length then ""
  else String.mk ('.' :: pre.reverse)

def pathSegsAux (cur : List Char) : List Char → List (List Char)
  | [] => [cur.reverse]
  | c :: t => if c = '/' then cur.reverse :: pathSegsAux [] t else pathSegsAux (c :: cur) t

/-- The non-empty `/`-separated segments of a path. -/
def pathSegs (p : String) : List (List Char) :=
  (pathSegsAux [] p.data).filter (fun s => s ≠ [])

def dropCommonSegs : List (List Char) → List (List Char) →
    List (List Char) × List (List Char)
  | a :: as2, b :: bs2 =>
    if a = b then dropCommonSegs as2 bs2 else (a :: as2, b :: bs2)
  | as2, bs2 => (as2, bs2)

def joinSlash : List (List Char) → List Char
  | [] => []
  | [s] => s
  | s :: rest => s ++ '/' :: joinSlash rest

/-- `path.relative` for absolute normalized paths: drop the common
segment run, then one `..` per remaining source segment. -/
def pathRelative (f t : String) : String :=
  let r := dropCommonSegs (pathSegs f) (pathSegs t)
  String.mk (joinSlash (r.1.map (fun _ => ['.', '.']) ++ r.2))

/-- `ImageSrcResolverResult` of `src/transformer/transformer.ts`. -/
structure ImageSrcResolverResult where
  resolvedSrc : String
  resolvedToFilePath : String
deriving DecidableEq

/-- `imagePathToSrc?.call(imagePath) ?? '/' + path.relative(...)`
(`transformer.ts` line 276).  `Function.prototype.call`'s first argument
is the `this` binding, so the mapping is invoked with NO argument: its
`imagePath` parameter is `undefined`, which this embedding keeps
faithfully by applying the mapping to `none`. -/
def resolvedSrcOf (imagePathToSrc : Option (Option String → String))
    (assetsRoot imagePath : String) : String :=
  match imagePathToSrc with
  | some f => f none
  | none => "/" ++ slashify (pathRelative (dirname assetsRoot) imagePath)

/-- `PandocTransformer.transformToImageIfNeeded` (lines 240-279). -/
def transformToImageIfNeeded (svgGen : SvgBuilder) (env : Env) (assetsRoot : String)
    (getImageCacheDirectoryPath : Option (String → String))
    (imagePathToSrc : Option (Option String → String))
    (st : St) (filePath : String) : Option ImageSrcResolverResult × St :=
  let ext := extname filePath
  if ext = ".tex" then
    let r := svgGen st filePath
      (match getImageCacheDirectoryPath with
       | some g => some (g filePath)
       | none => none)
    match r.1.builtFilePath with
    | none => (none, r.2)
    | some bp =>
      (some { resolvedSrc := resolvedSrcOf imagePathToSrc assetsRoot bp,
              resolvedToFilePath := bp }, r.2)
  else if ext = ".pdf" then
    let cr := pdfToCairoRun env st (dirname filePath) (basenameStr filePath)
    match cr.1 with
    | none => (none, cr.2)
    | some sp =>
      (some { resolvedSrc := resolvedSrcOf imagePathToSrc assetsRoot sp,
              resolvedToFilePath := sp }, cr.2)
  else
    (some { resolvedSrc := resolvedSrcOf imagePathToSrc assetsRoot filePath,
            resolvedToFilePath := filePath }, st)

/-- The candidate extensions tried by `resolveFromAssetsRoot`. -/
def resolverExtensions : List String :=
  ["", ".svg", ".tex", ".pdf", ".png", ".jpeg", ".jpg", ".gif"]

/-- All candidate paths, directory-major then extension-minor. -/
def candidatePaths (assetsRoot : String) (directories : List String) (src : String) :
    List String :=
  (directories.map (fun d => resolverExtensions.map (fun e => resolve3 assetsRoot d (src ++ e)))).join

/-- The directory × extension probe loop of `resolveFromAssetsRoot`
(lines 206-226): first existing candidate that transforms to an image
wins; state changes of failed transformations persist. -/
def tryLocations (svgGen : SvgBuilder) (env : Env) (assetsRoot : String)
    (getCache : Option (String → String))
    (imagePathToSrc : Option (Option String → String)) :
    List String → St → Option ImageSrcResolverResult × St
  | [], st => (none, st)
  | fp :: rest, st =>
    if st.fs.existsSync fp then
      match transformToImageIfNeeded svgGen env assetsRoot getCache imagePathToSrc st fp with
      | (some r, st2) => (some r, st2)
      | (none, st2) => tryLocations svgGen env assetsRoot getCache imagePathToSrc rest st2
    else tryLocations svgGen env assetsRoot getCache imagePathToSrc rest st

/-- The resolver closure returned by
`PandocTransformer.resolveFromAssetsRoot` (lines 161-229). -/
def resolveFromAssetsRootRun (svgGen : SvgBuilder) (env : Env) (assetsRoot : String)
    (subdirectories : List String) (getCache : Option (String → String))
    (imagePathToSrc : Option (Option String → String)) (extractorDirs : List String)
    (st : St) (texFilePath src : String) : Option ImageSrcResolverResult × St :=
  let directories := "" :: dirname texFilePath :: (subdirectories ++ extractorDirs)
  let cands := candidatePaths assetsRoot directories src
  if startsWith "file://".data src.data then
    match transformToImageIfNeeded svgGen env assetsRoot getCache imagePathToSrc st
        (String.mk (src.data.drop 7)) with
    | (some r, st2) => (some r, st2)
    | (none, st2) => tryLocations svgGen env assetsRoot getCache imagePathToSrc cands st2
  else tryLocations svgGen env assetsRoot getCache imagePathToSrc cands st

/- The parsed HTML tree of node-html-parser, mutually with its child
lists so that all traversals are structural. -/
mutual
inductive Html where
  | elem : String → List (String × String) → HtmlList → Html
  | text : String → Html
inductive HtmlList where
  | nil : HtmlList
  | cons : Html → HtmlList → HtmlList
end

/-- `getAttribute`. -/
def getAttr : List (String × String) → String → Option String
  | [], _ => none
  | (k, v) :: t, n => if k = n then some v else getAttr t n

/-- `setAttribute`: overwrite in place, else append. -/
def setAttr : List (String × String) → String → String → List (String × String)
  | [], n, v => [(n, v)]
  | (k, w) :: t, n, v => if k = n then (k, v) :: t else (k, w) :: setAttr t n v

/-- An image `src` resolver, state-threaded:
`(texFilePath, src) ↦ result`. -/
abbrev ImgResolver := St → String → String → Option ImageSrcResolverResult × St

/- `PandocTransformer.replaceImages` (lines 109-138): document-order
traversal of `img` elements; an element with a present non-empty `src`
that the resolver resolves gets its `src` and `alt` attributes rewritten
and contributes one result entry. -/
mutual
def replaceImagesNode (resolver : Option ImgResolver) (texFilePath : String) :
    Html → St → Html × List ImageSrcResolverResult × St
  | Html.text s, st => (Html.text s, [], st)
  | Html.elem tag attrs children, st =>
    if tag = "img" then
      match getAttr attrs "src" with
      | none =>
        let rc := replaceImagesList resolver texFilePath children st
        (Html.elem tag attrs rc.1, rc.2.1, rc.2.2)
      | some src =>
        if src = "" then
          let rc := replaceImagesList resolver texFilePath children st
          (Html.elem tag attrs rc.1, rc.2.1, rc.2.2)
        else
          match resolver with
          | none =>
            let rc := replaceImagesList resolver texFilePath children st
            (Html.elem tag attrs rc.1, rc.2.1, rc.2.2)
          | some f =>
            match f st texFilePath src with
            | (some r, st2) =>
              let attrs2 := setAttr (setAttr attrs "src" r.resolvedSrc) "alt" (getFileName src)
              let rc := replaceImagesList resolver texFilePath children st2
              (Html.elem tag attrs2 rc.1, r :: rc.2.1, rc.2.2)
            | (none, st2) =>
              let rc := replaceImagesList resolver texFilePath children st2
              (Html.elem tag attrs rc.1, rc.2.1, rc.2.2)
    else
      let rc := replaceImagesList resolver texFilePath children st
      (Html.elem tag attrs rc.1, rc.2.1, rc.2.2)
def replaceImagesList (resolver : Option ImgResolver) (texFilePath : String) :
    HtmlList → St → HtmlList × List ImageSrcResolverResult × St
  | HtmlList.nil, st => (HtmlList.nil, [], st)
  | HtmlList.cons h t, st =>
    let rh := replaceImagesNode resolver texFilePath h st
    let rt := replaceImagesList resolver texFilePath t rh.2.2
    (HtmlList.cons rh.1 rt.1, rh.2.1 ++ rt.2.1, rt.2.2)
end

/- `PandocTransformer.renderMath` (lines 145-151): every `eq` element
is replaced by the math renderer's output for that element. -/
mutual
def renderMathNode (mr : Html → String) : Html → Html
  | Html.text s => Html.text s
  | Html.elem tag attrs children =>
    if tag = "eq" then Html.text (mr (Html.elem tag attrs children))
    else Html.elem tag attrs (renderMathList mr children)
def renderMathList (mr : Html → String) : HtmlList → HtmlList
  | HtmlList.nil => HtmlList.nil
  | HtmlList.cons h t => HtmlList.cons (renderMathNode mr h) (renderMathList mr t)
end

/-- `TransformResult` of `src/transformer/result.ts`. -/
structure TransformResult where
  htmlResult : Option Html := none
  replacedImages : List ImageSrcResolverResult := []

/-- The `for (const imageExtractor of this.imageExtractors)` loop of
`transform` (lines 77-79). -/
def runExtractors (texFilePath : String) :
    List (LatexImageExtractorCfg × SvgBuilder) → String → St → String × St
  | [], content, st => (content, st)
  | (cfg, gen) :: rest, content, st =>
    let r := extractImages cfg gen content texFilePath st
    runExtractors texFilePath rest r.1 r.2

/-- `PandocTransformer.transform` (lines 69-100): take the supplied text
or read the file, run the extractors, run Pandoc in the source's
directory, then replace images and render math. -/
def transform (pandoc : String → String → Option Html)
    (resolver : Option ImgResolver) (mr : Html → String)
    (imageExtractors : List (LatexImageExtractorCfg × SvgBuilder))
    (st : St) (texFilePath : String) (texFileContent : Option String) :
    TransformResult × St :=
  let content0 := match texFileContent with
    | some c => c
    | none => st.fs.readFile texFilePath
  let rext := runExtractors texFilePath imageExtractors content0 st
  match pandoc (dirname texFilePath) rext.1 with
  | none => ({ htmlResult := none, replacedImages := [] }, rext.2)
  | some root =>
    let ri := replaceImagesNode resolver texFilePath root rext.2
    let root2 := renderMathNode mr ri.1
    ({ htmlResult := some root2, replacedImages := ri.2.1 }, ri.2.2)

/-! ### C8 concrete instances -/

/-- A mapping that records whether it received its `imagePath`
argument. -/
def c8map : Option String → String := fun o =>
  match o with
  | some p => "/mapped" ++ p
  | none => "/mapped-undefined"

def c8env : Env :=
  { latexmkOk := fun _ _ => false
    pdfContent := fun _ _ => ""
    pdftocairoOk := fun _ _ => false
    svgContent := fun _ _ => ""
    optimizeSvg := fun _ s => s }

def c8gen : SvgBuilder := fun st _ _ => ({ builtFilePath := none, wasCached := false }, st)

def c8st : St :=
  { fs := ⟨fun p => if p = "/w/assets/img.png" then some "IMG" else none, fun _ => none⟩ }

/-- C8: the default assets-root resolver resolves `img.png` to the
existing file `/w/assets/img.png`, but the supplied `imagePathToSrc`
mapping is invoked through `Function.prototype.call` with the image path
as the `this` binding and NO argument (`imagePathToSrc?.call(imagePath)`,
`transformer.ts` line 276), so `resolvedSrc` is the mapping of
`undefined` — not, as claimed, the mapping applied to the resolved image
file path.  Without a mapping the root-relative default is used. -/
theorem c8_image_path_to_src_gets_undefined :
    (resolveFromAssetsRootRun c8gen c8env "/w/assets" [] none (some c8map) []
      c8st "/w/doc/d.tex" "img.png").1
      = some { resolvedSrc := "/mapped-undefined",
               resolvedToFilePath := "/w/assets/img.png" } ∧
    c8map (some "/w/assets/img.png") = "/mapped/w/assets/img.png" ∧
    ("/mapped-undefined" : String) ≠ "/mapped/w/assets/img.png" ∧
    (resolveFromAssetsRootRun c8gen c8env "/w/assets" [] none none []
      c8st "/w/doc/d.tex" "img.png").1
      = some { resolvedSrc := "/assets/img.png",
               resolvedToFilePath := "/w/assets/img.png" } := by
  refine ⟨by decide, by decide, by decide, by decide⟩

/-! ### C10 -/

mutual
theorem replaceImagesNode_none (texFilePath : String) :
    ∀ (h : Html) (st : St), replaceImagesNode none texFilePath h st = (h, [], st)
  | Html.text s, st => rfl
  | Html.elem tag attrs children, st => by
    unfold replaceImagesNode
    rw [replaceImagesList_none texFilePath children st]
    split
    · cases getAttr attrs "src" with
      | none => rfl
      | some src =>
        dsimp only
        split
        · rfl
        · rfl
    · rfl
theorem replaceImagesList_none (texFilePath : String) :
    ∀ (hl : HtmlList) (st : St), replaceImagesList none texFilePath hl st = (hl, [], st)
  | HtmlList.nil, st => rfl
  | HtmlList.cons h t, st => by
    unfold replaceImagesList
    rw [replaceImagesNode_none texFilePath h st]
    dsimp only
    rw [replaceImagesList_none texFilePath t st]
    rfl
end

/-- C10 (amended): when the source text is supplied AND no image
extractors and no image src resolver are configured, `transform` reads
no file at all: it returns the identical result over any two machine
states (in particular over filesystems with different contents at the
source path), and leaves the state untouched.  The original claim fails
without the extra conditions: a configured assets-root resolver can
probe `dirname(texFilePath)` with the `.tex` extension, reach the source
file itself and fingerprint its on-disk contents. -/
theorem c10_supplied_text_reads_nothing
    (pandoc : String → String → Option Html) (mr : Html → String)
    (st1 st2 : St) (texFilePath text : String) :
    (transform pandoc none mr [] st1 texFilePath (some text)).1
      = (transform pandoc none mr [] st2 texFilePath (some text)).1 ∧
    (transform pandoc none mr [] st1 texFilePath (some text)).2 = st1 := by
  unfold transform
  simp only [runExtractors]
  cases hp : pandoc (dirname texFilePath) text with
  | none => exact ⟨rfl, rfl⟩
  | some root =>
    dsimp only
    rw [replaceImagesNode_none texFilePath root st1, replaceImagesNode_none texFilePath root st2]
    exact ⟨rfl, rfl⟩

/-! ### C10 concrete instances -/

def c10pandoc : String → String → Option Html := fun _ _ =>
  some (Html.elem "img" [("src", "main")] HtmlList.nil)

def c10mr : Html → String := fun _ => ""

def c10env : Env :=
  { latexmkOk := fun _ _ => false
    pdfContent := fun _ _ => ""
    pdftocairoOk := fun _ _ => true
    svgContent := fun _ _ => "SVG"
    optimizeSvg := fun _ s => s }

def c10gen : SvgBuilder := fun st p cd => svgGenerate { } calcFn1 c10env st p cd none

def c10resolver : ImgResolver := fun st tex src =>
  resolveFromAssetsRootRun c10gen c10env "/d/assets" [] (some (fun _ => "/c")) none []
    st tex src

def c10files0 : String → Option String := fun p =>
  if p = "/c/main.pdf" then some "P"
  else if p = "/c/main.checksums" then some "\x7b\"file:main\":\"X\"\x7d"
  else none

def c10st1 : St :=
  { fs := ⟨fun p => if p = "/d/main.tex" then some "X" else c10files0 p, fun _ => none⟩ }

def c10st2 : St :=
  { fs := ⟨fun p => if p = "/d/main.tex" then some "Y" else c10files0 p, fun _ => none⟩ }

/-- C10 counterexample: two `transform` calls with the SAME supplied
text, over filesystems that differ ONLY in the on-disk contents of the
source path `/d/main.tex`, produce different results: the assets-root
resolver probes `dirname(texFilePath)` with the `.tex` extension,
reaches the source file itself and fingerprints its contents for the
SVG cache — a cache hit on one filesystem and a miss (with a failing
compile) on the other. -/
theorem c10_counterexample_resolver_reads_source :
    (∀ q, q ≠ "/d/main.tex" → c10st1.fs.files q = c10st2.fs.files q) ∧
    (transform c10pandoc (some c10resolver) c10mr [] c10st1 "/d/main.tex"
        (some "T")).1.replacedImages
      = [{ resolvedSrc := "/main.svg", resolvedToFilePath := "/d/main.svg" }] ∧
    (transform c10pandoc (some c10resolver) c10mr [] c10st2 "/d/main.tex"
        (some "T")).1.replacedImages = [] := by
  refine ⟨?_, by decide, by decide⟩
  intro q hq
  show (if q = "/d/main.tex" then some "X" else c10files0 q)
    = (if q = "/d/main.tex" then some "Y" else c10files0 q)
  rw [if_neg hq, if_neg hq]

end ThatLatexLib
